import Mathlib

/-!
# Basecoin application core and the typed integer accessor

A shallow embedding of `app/app.go` (the ABCI state machine `Basecoin`) and of
`store/state/integer.go` (the `Integer` wrapper over a raw `Value`), with the
historical-info tracker exercised by `x/staking/abci_test.go`.

Conventions of the embedding:

* Go methods that mutate their receiver become functions returning the new receiver.
* A Go `panic` is an explicit `Outcome.panic`.
* `[]byte` is `List Nat` (each element a byte value); a nil slice returned by a store
  lookup is `none`.
* `uint64` is `Nat`, reduced modulo `2 ^ 64` where the Go arithmetic can overflow.
* Every method call that `Basecoin` makes on one of its collaborators (the handler, the
  store client, the `State`) is recorded, in program order, in the `calls` field of the
  returned `Step`, so that "is never invoked" and "is invoked exactly once" are statements
  about a list.
-/

set_option autoImplicit false

/-- Byte slices. -/
abbrev Bytes := List Nat

/-- A Go `error` value, identified by the text its `Error()` method returns. -/
structure GoError where
  msg : String
  deriving DecidableEq, Repr

/-- The method `err.Error()`. -/
def GoError.Error (e : GoError) : String := e.msg

/-- Result of a Go call that either returns normally or panics. -/
inductive Outcome (α : Type) where
  | ret (a : α)
  | panic (msg : String)
  deriving DecidableEq, Repr

/-- Whether the call panicked. -/
def Outcome.panics {α : Type} : Outcome α → Bool
  | .ret _ => false
  | .panic _ => true

/-- A `log.Logger`: the key/value context accumulated by `With`. -/
abbrev Logger := List (String × String)

/-- The method `logger.With(key, value)`. -/
def Logger.With (l : Logger) (key value : String) : Logger := l ++ [(key, value)]

/-! ## `abci/types` (external library): the wire types used by `app.go` -/

namespace abci

abbrev CodeType := Nat

def CodeType_OK : CodeType := 0
def CodeType_InternalError : CodeType := 1
def CodeType_EncodingError : CodeType := 2

structure Result where
  Code : CodeType
  Data : Bytes
  Log : String
  deriving DecidableEq, Repr

/-- The method `res.IsErr()`: the code is not `CodeType_OK`. -/
def Result.IsErr (r : Result) : Bool := r.Code != CodeType_OK

structure RequestQuery where
  Data : Bytes
  Path : String
  Height : Nat
  Prove : Bool
  deriving DecidableEq, Repr

structure ResponseQuery where
  Code : CodeType
  Index : Int
  Key : Bytes
  Value : Bytes
  Proof : Bytes
  Height : Nat
  Log : String
  deriving DecidableEq, Repr

/-- The zero value of `ResponseQuery` (a Go named result before any assignment). -/
def ResponseQuery.zero : ResponseQuery :=
  { Code := 0, Index := 0, Key := [], Value := [], Proof := [], Height := 0, Log := "" }

structure ResponseInfo where
  Data : String
  Version : String
  LastBlockHeight : Nat
  LastBlockAppHash : Bytes
  deriving DecidableEq, Repr

structure Validator where
  PubKey : Bytes
  Power : Nat
  deriving DecidableEq, Repr

structure Header where
  ChainID : String
  Height : Nat
  deriving DecidableEq, Repr

structure ResponseEndBlock where
  Diffs : List Validator
  deriving DecidableEq, Repr

/-- The zero value of `ResponseEndBlock`. -/
def ResponseEndBlock.zero : ResponseEndBlock := { Diffs := [] }

end abci

/-! ## `merkleeyes/client`: the store client -/

namespace eyes

/-- The store client. The live contents of the backing store are held by `sm.State.store`
in this embedding (the `State` is built over the client and is the only writer), so the
synchronous calls are functions of the contents at the time of the call; `data` is the
contents found when the client is first wrapped by `sm.NewState`. -/
structure Client where
  data : List (Bytes × Bytes)
  InfoSync : List (Bytes × Bytes) → Except GoError abci.ResponseInfo
  QuerySync : List (Bytes × Bytes) → abci.RequestQuery → abci.ResponseQuery × Option GoError
  CommitSync : List (Bytes × Bytes) → abci.Result

end eyes

/-! ## `basecoin/state`: `State` and its overlays -/

namespace sm

/-- Modelled from the spec: the type `State` of package `basecoin/state` is not among the
sources. Spec, data model: "the canonical, committed key-value mapping plus chain
identifier". -/
structure State where
  chainID : String
  store : List (Bytes × Bytes)
  deriving DecidableEq, Repr

/-- Modelled from the spec: `NewState` is not among the sources; a `State` over the
contents of the store client, with no chain identifier set yet. -/
def NewState (eyesCli : eyes.Client) (_l : Logger) : State :=
  { chainID := "", store := eyesCli.data }

/-- Modelled from the spec: `Get(key)` on the authoritative state, value or absent. -/
def State.Get (s : State) (k : Bytes) : Option Bytes := s.store.lookup k

/-- Modelled from the spec: `Set(key, value)` on the authoritative state. -/
def State.Set (s : State) (k v : Bytes) : State :=
  { s with store := (k, v) :: s.store }

/-- Modelled from the spec: `Remove(key)` on the authoritative state. -/
def State.Remove (s : State) (k : Bytes) : State :=
  { s with store := s.store.filter (fun p => !(p.1 == k)) }

/-- Modelled from the spec: `SetChainID` is not among the sources. The spec says only that
it "sets the chain identifier directly on State"; the model sets the identifier and makes
the least choice for the rest, touching no key-value entry. What `SetOption` guarantees for
any other `SetChainID` is stated over `Basecoin.SetOptionVia`. -/
def State.SetChainID (s : State) (chainID : String) : State :=
  { s with chainID := chainID }

/-- Modelled from the spec: `GetChainID` is not among the sources; it reads the chain
identifier of the state. -/
def State.GetChainID (s : State) : String := s.chainID

/-- Pending writes of an overlay, newest first: key to value-or-tombstone. -/
abbrev Pending := List (Bytes × Option Bytes)

/-- Modelled from the spec: the overlay ("CacheState") is not among the sources. Spec, data
model: "a child view of a State ... holding pending writes (mapping from key to
value-or-tombstone) not yet visible to the parent". -/
structure Cache where
  parent : State
  pending : Pending
  deriving DecidableEq, Repr

/-- Modelled from the spec: "`CacheWrap() → Overlay` creates a fresh overlay over the
current state". -/
def State.CacheWrap (s : State) : Cache := { parent := s, pending := [] }

/-- Modelled from the spec: "`Get(key)` resolves local pending writes first, falling
through to the parent". -/
def Cache.Get (c : Cache) (k : Bytes) : Option Bytes :=
  match c.pending.lookup k with
  | some w => w
  | none => c.parent.Get k

/-- Modelled from the spec: "`Set(key, value)` ... buffer locally". -/
def Cache.Set (c : Cache) (k v : Bytes) : Cache :=
  { c with pending := (k, some v) :: c.pending }

/-- Modelled from the spec: "`Remove(key)` buffer locally". -/
def Cache.Remove (c : Cache) (k : Bytes) : Cache :=
  { c with pending := (k, none) :: c.pending }

/-- Replay one pending write into a state. -/
def State.replay (s : State) (w : Bytes × Option Bytes) : State :=
  match w.2 with
  | some v => s.Set w.1 v
  | none => s.Remove w.1

/-- Modelled from the spec: "`CacheSync()` atomically replays all pending writes into the
parent"; the oldest write (last of the list) is replayed first. The result is the parent
after the sync. -/
def Cache.CacheSync (c : Cache) : State :=
  c.pending.foldr (fun w s => s.replay w) c.parent

/-- Modelled from the spec: `State.Commit` is not among the sources. "Commit the
accumulated per-block mutations that are already synced into State down to the backing
store"; the result is the one the store client reports. -/
def State.Commit (s : State) (eyesCli : eyes.Client) : State × abci.Result :=
  (s, eyesCli.CommitSync s.store)

end sm

/-! ## `basecoin/stack` and `basecoin`: context, transactions, handler -/

namespace stack

/-- Modelled from the spec: `Context` of package `basecoin/stack` is not among the sources.
Spec, data model: "ambient per-call data — chain identifier, a scoped logger". -/
structure Context where
  chainID : String
  logger : Logger
  deriving DecidableEq, Repr

/-- Modelled from the spec: `NewContext(chainID, logger)`. -/
def NewContext (chainID : String) (logger : Logger) : Context :=
  { chainID := chainID, logger := logger }

end stack

namespace basecoin

/-- A decoded transaction. -/
structure Tx where
  payload : Bytes
  deriving DecidableEq, Repr

/-- The handler result type `basecoin.Result`. -/
structure Result where
  Data : Bytes
  Log : String
  deriving DecidableEq, Repr

/-- A write a handler performs on the state it was handed. -/
inductive WriteOp where
  | Set (k v : Bytes)
  | Remove (k : Bytes)
  deriving DecidableEq, Repr

/-- The pluggable `basecoin.Handler`. A handler reads through the state it is handed and
acts on it by `Set` and `Remove`; each method returns the writes it performed, in program
order, next to its Go return values. `SetOption` is handed the authoritative state itself
and returns that state as it left it. `CheckTx` is handed a possibly nil pointer. -/
structure Handler where
  SetOption : Logger → sm.State → String → String → sm.State × Except GoError String
  DeliverTx : stack.Context → sm.Cache → Tx → List WriteOp × Except GoError Result
  CheckTx : stack.Context → Option sm.Cache → Tx → List WriteOp × Except GoError Result

end basecoin

namespace sm

/-- One handler write applied to an overlay. -/
def Cache.write (c : Cache) : basecoin.WriteOp → Cache
  | .Set k v => c.Set k v
  | .Remove k => c.Remove k

/-- The overlay after a handler has performed `ops` on it, oldest first. -/
def Cache.run (c : Cache) (ops : List basecoin.WriteOp) : Cache :=
  ops.foldl Cache.write c

end sm

/-! ## `app/app.go` -/

namespace app

def PluginNameBase : String := "base"
def ChainKey : String := "base/chain_id"

/-- Package-level functions used by `app.go` whose bodies are not among the sources:
`basecoin.LoadTx`, `errors.Result`, `Result.ToABCI`, `abci.Result.Error` and the constant
`version.Version`. They are parameters of the embedding. -/
structure Pkg where
  LoadTx : Bytes → Except GoError basecoin.Tx
  errorsResult : GoError → abci.Result
  ToABCI : basecoin.Result → abci.Result
  resultError : abci.Result → String
  Version : String

/-- The struct `Basecoin`. The Go field `cacheState` is a possibly nil pointer to an overlay
whose parent pointer is `state`; the embedding keeps the overlay's pending writes and
re-attaches the current `state` as parent at each use (`Basecoin.cacheView`). -/
structure Basecoin where
  eyesCli : eyes.Client
  state : sm.State
  cacheState : Option sm.Pending
  handler : basecoin.Handler
  logger : Logger

/-- The object `app.cacheState` points to: nil, or the overlay over the current `state`. -/
def Basecoin.cacheView (app : Basecoin) : Option sm.Cache :=
  app.cacheState.map (fun p => { parent := app.state, pending := p })

/-- A method call made by `Basecoin` on a collaborator, with its arguments. -/
inductive Call where
  | InfoSync
  | QuerySync (req : abci.RequestQuery)
  | StateSetChainID (value : String)
  | StateGetChainID
  | StateCacheWrap
  | StateCommit
  | CacheSync
  | HandlerSetOption (l : Logger) (state : sm.State) (key value : String)
  | HandlerDeliverTx (ctx : stack.Context) (cache : sm.Cache) (tx : basecoin.Tx)
  | HandlerCheckTx (ctx : stack.Context) (cacheState : Option sm.Cache) (tx : basecoin.Tx)
  deriving DecidableEq, Repr

/-- Whether the call is a call on the handler. -/
def Call.isHandler : Call → Bool
  | .HandlerSetOption _ _ _ _ => true
  | .HandlerDeliverTx _ _ _ => true
  | .HandlerCheckTx _ _ _ => true
  | _ => false

/-- Result of one ABCI method: the application afterwards, the Go return value, and the
collaborator calls made, in program order. -/
structure Step (α : Type) where
  app : Basecoin
  ret : α
  calls : List Call

/-- Embedding of `NewBasecoin`. -/
def NewBasecoin (h : basecoin.Handler) (eyesCli : eyes.Client) (l : Logger) : Basecoin :=
  let state := sm.NewState eyesCli (l.With "module" "state")
  { handler := h, eyesCli := eyesCli, state := state, cacheState := none, logger := l }

/-- Embedding of `GetState`, for testing: an overlay over the state. -/
def Basecoin.GetState (app : Basecoin) : sm.Cache := app.state.CacheWrap

/-- Embedding of `ABCI::Info`. -/
def Basecoin.Info (pkg : Pkg) (app : Basecoin) : Step (Outcome abci.ResponseInfo) :=
  match app.eyesCli.InfoSync app.state.store with
  | .error err => ⟨app, .panic err.Error, [.InfoSync]⟩
  | .ok resp =>
    ⟨app, .ret { Data := "Basecoin v" ++ pkg.Version, Version := "",
                 LastBlockHeight := resp.LastBlockHeight,
                 LastBlockAppHash := resp.LastBlockAppHash }, [.InfoSync]⟩

/-- Embedding of `ABCI::SetOption`. -/
def Basecoin.SetOption (app : Basecoin) (key value : String) : Step String :=
  if key = ChainKey then
    ⟨{ app with state := app.state.SetChainID value }, "Success", [.StateSetChainID value]⟩
  else
    let r := app.handler.SetOption app.logger app.state key value
    let calls := [Call.HandlerSetOption app.logger app.state key value]
    match r.2 with
    | .ok log => ⟨{ app with state := r.1 }, log, calls⟩
    | .error err => ⟨{ app with state := r.1 }, "Error: " ++ err.Error, calls⟩

/-- Embedding of `ABCI::DeliverTx`. -/
def Basecoin.DeliverTx (pkg : Pkg) (app : Basecoin) (txBytes : Bytes) : Step abci.Result :=
  match pkg.LoadTx txBytes with
  | .error err => ⟨app, pkg.errorsResult err, []⟩
  | .ok tx =>
    let cache := app.state.CacheWrap
    let ctx := stack.NewContext app.state.GetChainID (app.logger.With "call" "delivertx")
    let r := app.handler.DeliverTx ctx cache tx
    let calls := [Call.StateCacheWrap, Call.StateGetChainID, Call.HandlerDeliverTx ctx cache tx]
    match r.2 with
    | .error err =>
      -- discard the cache
      ⟨app, pkg.errorsResult err, calls⟩
    | .ok res =>
      -- commit the cache and return result
      ⟨{ app with state := (cache.run r.1).CacheSync }, pkg.ToABCI res,
        calls ++ [Call.CacheSync]⟩

/-- Embedding of `ABCI::CheckTx`. The handler is handed `app.cacheState`; its writes land in that
overlay when there is one. -/
def Basecoin.CheckTx (pkg : Pkg) (app : Basecoin) (txBytes : Bytes) : Step abci.Result :=
  match pkg.LoadTx txBytes with
  | .error err => ⟨app, pkg.errorsResult err, []⟩
  | .ok tx =>
    let ctx := stack.NewContext app.state.GetChainID (app.logger.With "call" "checktx")
    let r := app.handler.CheckTx ctx app.cacheView tx
    let calls := [Call.StateGetChainID, Call.HandlerCheckTx ctx app.cacheView tx]
    let app1 : Basecoin :=
      { app with cacheState := app.cacheView.map (fun c => (c.run r.1).pending) }
    match r.2 with
    | .error err => ⟨app1, pkg.errorsResult err, calls⟩
    | .ok res => ⟨app1, pkg.ToABCI res, calls⟩

/-- Embedding of `ABCI::Query`. -/
def Basecoin.Query (app : Basecoin) (reqQuery : abci.RequestQuery) : Step abci.ResponseQuery :=
  if reqQuery.Data.length = 0 then
    ⟨app, { abci.ResponseQuery.zero with
              Log := "Query cannot be zero length", Code := abci.CodeType_EncodingError }, []⟩
  else
    let r := app.eyesCli.QuerySync app.state.store reqQuery
    match r.2 with
    | some err =>
      ⟨app, { r.1 with Log := "Failed to query MerkleEyes: " ++ err.Error,
                       Code := abci.CodeType_InternalError }, [.QuerySync reqQuery]⟩
    | none => ⟨app, r.1, [.QuerySync reqQuery]⟩

/-- Embedding of `ABCI::Commit`. The check cache is replaced before the result is
inspected. -/
def Basecoin.Commit (pkg : Pkg) (app : Basecoin) : Step (Outcome abci.Result) :=
  -- Commit state
  let r := app.state.Commit app.eyesCli
  -- Wrap the committed state in cache for CheckTx
  let app1 : Basecoin := { app with state := r.1, cacheState := some r.1.CacheWrap.pending }
  let calls := [Call.StateCommit, Call.StateCacheWrap]
  if r.2.IsErr then
    ⟨app1, .panic ("Error getting hash: " ++ pkg.resultError r.2), calls⟩
  else
    ⟨app1, .ret r.2, calls⟩

/-- Embedding of `ABCI::InitChain`. -/
def Basecoin.InitChain (app : Basecoin) (_validators : List abci.Validator) : Step Unit :=
  ⟨app, (), []⟩

/-- Embedding of `ABCI::BeginBlock`. -/
def Basecoin.BeginBlock (app : Basecoin) (_hash : Bytes) (_header : abci.Header) : Step Unit :=
  ⟨app, (), []⟩

/-- Embedding of `ABCI::EndBlock`. -/
def Basecoin.EndBlock (app : Basecoin) (_height : Nat) : Step abci.ResponseEndBlock :=
  ⟨app, abci.ResponseEndBlock.zero, []⟩

end app

/-! ## `store/state/integer.go` -/

namespace state

/-- Modelled from the spec: the `Context` of package `store/state` is not among the
sources; it gives access to the key-value store the typed values live in. -/
structure Context where
  store : List (Bytes × Bytes)
  deriving DecidableEq, Repr

/-- Modelled from the spec: the type `Value` is not among the sources; it addresses one key
of the store ("raw byte-slice storage"). -/
structure Value where
  key : Bytes
  deriving DecidableEq, Repr

/-- Modelled from the spec: `GetRaw` returns the bytes stored under the key, nil when the
key is absent. -/
def Value.GetRaw (v : Value) (ctx : Context) : Option Bytes := ctx.store.lookup v.key

/-- Modelled from the spec: `SetRaw` stores the bytes under the key. -/
def Value.SetRaw (v : Value) (ctx : Context) (bz : Bytes) : Context :=
  { store := (v.key, bz) :: ctx.store }

/-- The tag `IntEncoding` selecting a serialization format. -/
abbrev IntEncoding := Nat

/-- The functions `EncodeInt` and `DecodeInt`, whose bodies are not among the sources; they
are parameters of the embedding. `DecodeInt` returns the Go pair `(res, err)`. -/
structure Codec where
  EncodeInt : Nat → IntEncoding → Bytes
  DecodeInt : Bytes → IntEncoding → Nat × Option GoError

/-- The errors built by `ErrEmptyValue()` and `ErrUnmarshal(err)`. -/
inductive Error where
  | EmptyValue
  | Unmarshal (cause : GoError)
  deriving DecidableEq, Repr

def ErrEmptyValue : Error := .EmptyValue
def ErrUnmarshal (err : GoError) : Error := .Unmarshal err

/-- The struct `Integer`: an embedded `Value` and an encoding. -/
structure Integer where
  Value : Value
  enc : IntEncoding
  deriving DecidableEq, Repr

/-- Embedding of `NewInteger`. -/
def NewInteger (v : Value) (enc : IntEncoding) : Integer := { Value := v, enc := enc }

/-- Embedding of `Integer.Get`: the store afterwards and the returned value, or a panic. -/
def Integer.Get (cd : Codec) (v : Integer) (ctx : Context) : Context × Outcome Nat :=
  match v.Value.GetRaw ctx with
  | none => (ctx, .ret 0)
  | some bz =>
    match cd.DecodeInt bz v.enc with
    | (_, some err) => (ctx, .panic err.Error)
    | (res, none) => (ctx, .ret res)

/-- Embedding of `Integer.GetSafe`: the store afterwards and the Go pair `(res, err)`. -/
def Integer.GetSafe (cd : Codec) (v : Integer) (ctx : Context) : Context × (Nat × Option Error) :=
  match v.Value.GetRaw ctx with
  | none => (ctx, (0, some ErrEmptyValue))
  | some bz =>
    match cd.DecodeInt bz v.enc with
    | (res, some err) => (ctx, (res, some (ErrUnmarshal err)))
    | (res, none) => (ctx, (res, none))

/-- Embedding of `Integer.Set`. -/
def Integer.Set (cd : Codec) (v : Integer) (ctx : Context) (value : Nat) : Context :=
  v.Value.SetRaw ctx (cd.EncodeInt value v.enc)

/-- Embedding of `Integer.Incr`: `uint64` addition wraps modulo `2 ^ 64`. -/
def Integer.Incr (cd : Codec) (v : Integer) (ctx : Context) : Context × Outcome Nat :=
  match v.Get cd ctx with
  | (ctx1, .panic msg) => (ctx1, .panic msg)
  | (ctx1, .ret g) =>
    let res := (g + 1) % 2 ^ 64
    (v.Set cd ctx1 res, .ret res)

end state

/-! ## Concrete collaborators used to instantiate the results -/

namespace sample

/-- A transaction decoder: the empty byte string does not decode. -/
def LoadTx (txBytes : Bytes) : Except GoError basecoin.Tx :=
  if txBytes = [] then .error ⟨"empty tx"⟩ else .ok ⟨txBytes⟩

/-- Package functions: errors map to code 1 with the message as log. -/
def pkg : app.Pkg :=
  { LoadTx := LoadTx
    errorsResult := fun e => { Code := abci.CodeType_InternalError, Data := [], Log := e.msg }
    ToABCI := fun r => { Code := abci.CodeType_OK, Data := r.Data, Log := r.Log }
    resultError := fun r => r.Log
    Version := "0.6.0" }

/-- A handler run: payload `k :: v :: rest` writes `[v]` at key `[k]`, then fails when
`rest` is not empty; shorter payloads fail without writing. -/
def exec (tx : basecoin.Tx) : List basecoin.WriteOp × Except GoError basecoin.Result :=
  match tx.payload with
  | k :: v :: rest =>
    if rest = [] then ([.Set [k] [v]], .ok { Data := [v], Log := "ok" })
    else ([.Set [k] [v]], .error ⟨"trailing bytes"⟩)
  | _ => ([], .error ⟨"short tx"⟩)

/-- A handler: `DeliverTx` and `CheckTx` run `exec`; `CheckTx` only validates when it is
handed a nil state; `SetOption` rejects the empty value. -/
def handler : basecoin.Handler :=
  { SetOption := fun _ st key value =>
      if value = "" then (st, .error ⟨"empty value"⟩) else (st, .ok ("set " ++ key))
    DeliverTx := fun _ _ tx => exec tx
    CheckTx := fun _ c tx =>
      match c with
      | none => ([], (exec tx).2)
      | some _ => exec tx }

/-- A store client over two entries; commits succeed and queries echo the key. -/
def eyesCli : eyes.Client :=
  { data := [([1], [10]), ([2], [20])]
    InfoSync := fun _ => .ok { Data := "", Version := "", LastBlockHeight := 0,
                               LastBlockAppHash := [] }
    QuerySync := fun st req =>
      ({ abci.ResponseQuery.zero with Key := req.Data, Value := (st.lookup req.Data).getD [] },
       none)
    CommitSync := fun st => { Code := abci.CodeType_OK, Data := [st.length], Log := "" } }

/-- The application right after construction. -/
def app0 : app.Basecoin := app.NewBasecoin handler eyesCli []

/-- Big-endian digits of `n` in base 256, `w` of them. -/
def toBE : Nat → Nat → Bytes
  | 0, _ => []
  | w + 1, n => toBE w (n / 256) ++ [n % 256]

/-- The number with big-endian base-256 digits `bz`. -/
def ofBE (bz : Bytes) : Nat := bz.foldl (fun acc b => acc * 256 + b) 0

/-- Modelled from the spec: an instance of the "big-endian fixed-width" scheme the spec
names for the on-disk encoding, eight bytes wide, for every encoding tag. -/
def codec : state.Codec :=
  { EncodeInt := fun v _ => toBE 8 (v % 2 ^ 64)
    DecodeInt := fun bz _ =>
      if bz.length = 8 then (ofBE bz, none) else (0, some ⟨"invalid length"⟩) }

/-- An integer stored under key `[9]`. -/
def counter : state.Integer := state.NewInteger ⟨[9]⟩ 0

end sample

/-! ## The integer encodings and repeated increments -/

namespace state

/-- Modelled from the spec: the encoding tags are not among the sources. The spec names the
"big-endian fixed-width" scheme; this is its tag. -/
def FixedWidth : IntEncoding := 0

/-- Modelled from the spec: the encoding tags are not among the sources. The spec names the
"varint" scheme; this is its tag. -/
def Varint : IntEncoding := 1

/-- The supported encodings: the two schemes above. -/
def Supported (enc : IntEncoding) : Bool := enc == FixedWidth || enc == Varint

/-- Base-128 little-endian digits of `n` with continuation bits, at most `w` bytes. -/
def putUvarint : Nat → Nat → Bytes
  | 0, _ => []
  | w + 1, n => if n < 128 then [n] else (n % 128 + 128) :: putUvarint w (n / 128)

/-- The number written by `putUvarint`; nothing may follow the final byte. -/
def uvarint : Bytes → Option Nat
  | [] => none
  | b :: rest =>
    if b < 128 then (if rest = [] then some b else none)
    else (uvarint rest).map (fun r => (b - 128) + 128 * r)

/-- Modelled from the spec: `EncodeInt` is not among the sources. "The on-disk encoding is a
configurable fixed scheme (e.g., big-endian fixed-width or varint)": eight big-endian bytes,
or a varint of at most ten bytes. -/
def EncodeInt (v : Nat) (enc : IntEncoding) : Bytes :=
  if enc = FixedWidth then sample.toBE 8 (v % 2 ^ 64)
  else if enc = Varint then putUvarint 10 (v % 2 ^ 64)
  else []

/-- Modelled from the spec: `DecodeInt` is not among the sources; the decoder matching
`EncodeInt`, returning the Go pair `(res, err)`. -/
def DecodeInt (bz : Bytes) (enc : IntEncoding) : Nat × Option GoError :=
  if enc = FixedWidth then
    if bz.length = 8 then (sample.ofBE bz, none) else (0, some ⟨"invalid length"⟩)
  else if enc = Varint then
    match uvarint bz with
    | some n => if n < 2 ^ 64 then (n, none) else (0, some ⟨"overflow"⟩)
    | none => (0, some ⟨"invalid varint"⟩)
  else (0, some ⟨"unknown encoding"⟩)

/-- The codec made of the two functions above. -/
def specCodec : Codec := { EncodeInt := EncodeInt, DecodeInt := DecodeInt }

/-- The results of `n` successive calls of `Incr`, oldest first, and the store after the
last one. -/
def Integer.IncrN (cd : Codec) (v : Integer) : Nat → Context → Context × List (Outcome Nat)
  | 0, ctx => (ctx, [])
  | n + 1, ctx =>
    let r := v.Incr cd ctx
    let rest := Integer.IncrN cd v n r.1
    (rest.1, r.2 :: rest.2)

end state

/-! ## The historical-info tracker of `x/staking` -/

namespace staking

/-- Modelled from the spec: the type `Validator` is not among the sources. Spec, data
model: "operator identity + public key + voting power + descriptive metadata". -/
structure Validator where
  OperatorAddress : Bytes
  ConsPubKey : Bytes
  Power : Int
  Description : String
  deriving DecidableEq, Repr

/-- Modelled from the spec: the type `HistoricalInfo` is not among the sources. Spec, data
model: "immutable snapshot = {block header, ordered validator set at that height}". -/
structure HistoricalInfo where
  Header : abci.Header
  ValSet : List Validator
  deriving DecidableEq, Repr

/-- The zero value `HistoricalInfo{}`. -/
def HistoricalInfo.zero : HistoricalInfo :=
  { Header := { ChainID := "", Height := 0 }, ValSet := [] }

/-- Modelled from the spec: the ordered validator list, "sorted by the canonical validator
ordering"; the ordering `le` is a parameter. -/
def sortValidators (le : Validator → Validator → Bool) (vals : List Validator) :
    List Validator :=
  vals.insertionSort (fun a b => le a b = true)

/-- Modelled from the spec: `NewHistoricalInfo` is not among the sources; it builds
"`HistoricalInfo{header, validators}`" over the ordered validator list. -/
def NewHistoricalInfo (le : Validator → Validator → Bool) (header : abci.Header)
    (valSet : List Validator) : HistoricalInfo :=
  { Header := header, ValSet := sortValidators le valSet }

/-- The staking parameters read by the tracker. -/
structure Params where
  HistoricalEntries : Nat
  deriving DecidableEq, Repr

/-- Modelled from the spec: the staking keeper is not among the sources. It holds the
parameters, the height-indexed history ("indexed by block height in a dedicated namespace
of the state store") and the last-committed validator set. -/
structure Keeper where
  params : Params
  historical : List (Int × HistoricalInfo)
  lastValidators : List Validator
  deriving DecidableEq, Repr

/-- Modelled from the spec: `SetParams`. -/
def Keeper.SetParams (k : Keeper) (params : Params) : Keeper := { k with params := params }

/-- Modelled from the spec: `GetLastValidators`, "the currently bonded/last-power validator
set". -/
def Keeper.GetLastValidators (k : Keeper) : List Validator := k.lastValidators

/-- Modelled from the spec: `GetHistoricalInfo(height)` returns the entry and whether it was
found; the zero value when there is none. -/
def Keeper.GetHistoricalInfo (k : Keeper) (height : Int) : HistoricalInfo × Bool :=
  match k.historical.lookup height with
  | some hi => (hi, true)
  | none => (HistoricalInfo.zero, false)

/-- Modelled from the spec: `SetHistoricalInfo(height, hi)` writes the entry at the key
`height`. -/
def Keeper.SetHistoricalInfo (k : Keeper) (height : Int) (hi : HistoricalInfo) : Keeper :=
  { k with historical := (height, hi) :: k.historical }

/-- Modelled from the spec: `DeleteHistoricalInfo(height)` removes the entry at the key
`height`. -/
def Keeper.DeleteHistoricalInfo (k : Keeper) (height : Int) : Keeper :=
  { k with historical := k.historical.filter (fun p => !(p.1 == height)) }

/-- Modelled from the spec: `BeginBlocker` is not among the sources (only its test is).
Spec 4.4: read `N`, skip when `N == 0`; build the ordered validator list; write
`HistoricalInfo{header, validators}` at key = current block height; "compute `height - N`;
if an entry exists at that height, delete it". -/
def BeginBlocker (le : Validator → Validator → Bool) (header : abci.Header) (k : Keeper) :
    Keeper :=
  let entryNum := k.params.HistoricalEntries
  if entryNum = 0 then k
  else
    let lastVals := k.GetLastValidators
    let historicalEntry := NewHistoricalInfo le header lastVals
    let k1 := k.SetHistoricalInfo (header.Height : Int) historicalEntry
    let pruneHeight : Int := (header.Height : Int) - (entryNum : Int)
    if (k1.GetHistoricalInfo pruneHeight).2 then k1.DeleteHistoricalInfo pruneHeight
    else k1

end staking

/-! ## Sequences of ABCI calls -/

namespace app

/-- A call of the consensus engine on the application. -/
inductive Request where
  | Info
  | SetOption (key value : String)
  | InitChain (validators : List abci.Validator)
  | BeginBlock (hash : Bytes) (header : abci.Header)
  | CheckTx (txBytes : Bytes)
  | DeliverTx (txBytes : Bytes)
  | EndBlock (height : Nat)
  | Commit
  | Query (reqQuery : abci.RequestQuery)
  deriving DecidableEq, Repr

/-- Whether the request is a `SetOption`. -/
def Request.isSetOption : Request → Bool
  | .SetOption _ _ => true
  | _ => false

/-- The application after one request and the collaborator calls it made. -/
def Basecoin.handle (pkg : Pkg) (app : Basecoin) : Request → Basecoin × List Call
  | .Info => ((app.Info pkg).app, (app.Info pkg).calls)
  | .SetOption key value => ((app.SetOption key value).app, (app.SetOption key value).calls)
  | .InitChain validators => ((app.InitChain validators).app, (app.InitChain validators).calls)
  | .BeginBlock hash header =>
    ((app.BeginBlock hash header).app, (app.BeginBlock hash header).calls)
  | .CheckTx txBytes => ((app.CheckTx pkg txBytes).app, (app.CheckTx pkg txBytes).calls)
  | .DeliverTx txBytes => ((app.DeliverTx pkg txBytes).app, (app.DeliverTx pkg txBytes).calls)
  | .EndBlock height => ((app.EndBlock height).app, (app.EndBlock height).calls)
  | .Commit => ((app.Commit pkg).app, (app.Commit pkg).calls)
  | .Query reqQuery => ((app.Query reqQuery).app, (app.Query reqQuery).calls)

/-- The application after a sequence of requests and all collaborator calls made, in
order. -/
def Basecoin.serve (pkg : Pkg) (app : Basecoin) : List Request → Basecoin × List Call
  | [] => (app, [])
  | r :: rs =>
    let s := app.handle pkg r
    let t := Basecoin.serve pkg s.1 rs
    (t.1, s.2 ++ t.2)

/-- The context handed to the handler by a `DeliverTx` or `CheckTx` call. -/
def Call.context : Call → Option stack.Context
  | .HandlerDeliverTx ctx _ _ => some ctx
  | .HandlerCheckTx ctx _ _ => some ctx
  | _ => none

/-- The state pointer handed to the handler by a `CheckTx` call. -/
def Call.checkState : Call → Option (Option sm.Cache)
  | .HandlerCheckTx _ cacheState _ => some cacheState
  | _ => none

end app

namespace sample

/-- A store client whose commits and queries fail. -/
def failingCli : eyes.Client :=
  { data := [([1], [10])]
    InfoSync := fun _ => .error ⟨"unreachable"⟩
    QuerySync := fun _ req => ({ abci.ResponseQuery.zero with Key := req.Data },
                               some ⟨"connection refused"⟩)
    CommitSync := fun _ => { Code := abci.CodeType_InternalError, Data := [], Log := "no hash" } }

/-- The application over the failing client. -/
def app1 : app.Basecoin := app.NewBasecoin handler failingCli []

/-- Validators are compared by operator address, byte by byte. -/
def addrLe (a b : staking.Validator) : Bool := decide (a.OperatorAddress ≤ b.OperatorAddress)

/-- A validator with the given address byte and power. -/
def val (addr : Nat) (power : Int) : staking.Validator :=
  { OperatorAddress := [addr], ConsPubKey := [addr, addr], Power := power, Description := "" }

/-- The keeper of `TestBeginBlocker` before `BeginBlocker` runs: five entries retained, an
entry at height 5, and two last validators set in descending address order. -/
def keeper : staking.Keeper :=
  { params := { HistoricalEntries := 5 }
    historical := [(5, staking.NewHistoricalInfo addrLe { ChainID := "HelloChain", Height := 5 }
                        [val 0 0, val 1 0])]
    lastValidators := [val 3 8, val 2 10] }

end sample

/-! ## `SetOption` over any `State.SetChainID`, and sequences that keep the chain identifier -/

namespace app

/-- Embedding of `ABCI::SetOption` with the method `State.SetChainID`, whose body is not
among the sources, as the parameter `setChainID`; with `sm.State.SetChainID` for it this is
`Basecoin.SetOption`. -/
def Basecoin.SetOptionVia (setChainID : sm.State → String → sm.State) (app : Basecoin)
    (key value : String) : Step String :=
  if key = ChainKey then
    ⟨{ app with state := setChainID app.state value }, "Success", [.StateSetChainID value]⟩
  else
    let r := app.handler.SetOption app.logger app.state key value
    let calls := [Call.HandlerSetOption app.logger app.state key value]
    match r.2 with
    | .ok log => ⟨{ app with state := r.1 }, log, calls⟩
    | .error err => ⟨{ app with state := r.1 }, "Error: " ++ err.Error, calls⟩

/-- Whether the chain identifier is not set again along the sequence: every `SetOption` in
it, run in its place in the sequence, leaves the chain identifier of `State` as it found
it. Nothing is asked of the other requests. -/
def Basecoin.keepsChainID (pkg : Pkg) (app : Basecoin) : List Request → Bool
  | [] => true
  | r :: rs =>
    (!r.isSetOption || decide ((app.handle pkg r).1.state.chainID = app.state.chainID))
      && Basecoin.keepsChainID pkg (app.handle pkg r).1 rs

end app

namespace sample

/-- The bytes of a string, one per character code. -/
def bytesOf (s : String) : Bytes := s.data.map Char.toNat

/-- A `State.SetChainID` that sets the chain identifier and also stores it in the key-value
mapping under the reserved key. -/
def storingSetChainID (s : sm.State) (chainID : String) : sm.State :=
  (s.Set (bytesOf app.ChainKey) (bytesOf chainID)).SetChainID chainID

end sample

/-! ## Reads through states and overlays -/

namespace sm

theorem lookup_cons_ite {β : Type} (k a : Bytes) (b : β) (es : List (Bytes × β)) :
    List.lookup k ((a, b) :: es) = if k = a then some b else es.lookup k := by
  rw [List.lookup_cons]
  by_cases h : k = a
  · subst h
    simp
  · have hb : (k == a) = false := by simpa using h
    simp [hb, h]

theorem lookup_filter_ne (l : List (Bytes × Bytes)) (k k1 : Bytes) :
    (l.filter (fun p => !(p.1 == k))).lookup k1 = if k1 = k then none else l.lookup k1 := by
  induction l with
  | nil => simp
  | cons p l ih =>
    obtain ⟨a, b⟩ := p
    by_cases hak : a = k
    · subst hak
      by_cases hk : k1 = a
      · subst hk
        simp [List.filter_cons, ih]
      · simp [List.filter_cons, ih, hk, lookup_cons_ite]
    · by_cases hk : k1 = k
      · subst hk
        have hne : ¬ k1 = a := fun h => hak h.symm
        simp [List.filter_cons, hak, ih, lookup_cons_ite, hne]
      · by_cases hka : k1 = a
        · subst hka
          simp [List.filter_cons, hak, lookup_cons_ite]
        · simp [List.filter_cons, hak, ih, hk, hka, lookup_cons_ite]

theorem State.Get_Set (s : State) (k v k1 : Bytes) :
    (s.Set k v).Get k1 = if k1 = k then some v else s.Get k1 := by
  simp [State.Set, State.Get, lookup_cons_ite]

theorem State.Get_Remove (s : State) (k k1 : Bytes) :
    (s.Remove k).Get k1 = if k1 = k then none else s.Get k1 := by
  simp [State.Remove, State.Get, lookup_filter_ne]

theorem State.Get_replay (s : State) (w : Bytes × Option Bytes) (k1 : Bytes) :
    (s.replay w).Get k1 = if k1 = w.1 then w.2 else s.Get k1 := by
  obtain ⟨k, o⟩ := w
  cases o with
  | none => simp [State.replay, State.Get_Remove]
  | some v => simp [State.replay, State.Get_Set]

theorem State.chainID_replay (s : State) (w : Bytes × Option Bytes) :
    (s.replay w).chainID = s.chainID := by
  obtain ⟨k, o⟩ := w
  cases o <;> rfl

/-- Reads through the parent after a sync are the reads through the overlay before it. -/
theorem Cache.Get_CacheSync (c : Cache) (k : Bytes) : c.CacheSync.Get k = c.Get k := by
  obtain ⟨parent, pending⟩ := c
  induction pending with
  | nil => simp [Cache.CacheSync, Cache.Get]
  | cons w ws ih =>
    obtain ⟨a, o⟩ := w
    simp only [Cache.CacheSync, Cache.Get, List.foldr_cons] at ih ⊢
    rw [State.Get_replay, ih]
    rw [lookup_cons_ite]
    by_cases hk : k = a
    · subst hk
      simp
    · simp [hk]

/-- A sync does not touch the chain identifier of the parent. -/
theorem Cache.chainID_CacheSync (c : Cache) : c.CacheSync.chainID = c.parent.chainID := by
  obtain ⟨parent, pending⟩ := c
  induction pending with
  | nil => rfl
  | cons w ws ih =>
    simp only [Cache.CacheSync, List.foldr_cons] at ih ⊢
    rw [State.chainID_replay, ih]

/-- A fresh overlay reads what its parent reads. -/
theorem State.Get_CacheWrap (s : State) (k : Bytes) : s.CacheWrap.Get k = s.Get k := by
  simp [State.CacheWrap, Cache.Get]

/-- A handler run on an overlay leaves the parent of the overlay alone. -/
theorem Cache.parent_run (c : Cache) (ops : List basecoin.WriteOp) :
    (c.run ops).parent = c.parent := by
  induction ops generalizing c with
  | nil => rfl
  | cons op ops ih =>
    simp only [Cache.run, List.foldl_cons] at ih ⊢
    rw [ih]
    cases op <;> rfl

end sm

/-! ## The application core -/

/-- C1 (discard on error). When the transaction decodes and the handler's `DeliverTx`
returns an error after performing the writes `ops` on its overlay, `Basecoin.DeliverTx`
leaves `State` as it was, so every key reads from `State` what it read before the call
(also the keys written by `ops`), the check cache is untouched, and the result is
`errors.Result` of the handler's error. -/
theorem DeliverTx_discard_on_error (pkg : app.Pkg) (a : app.Basecoin) (txBytes : Bytes)
    (tx : basecoin.Tx) (ops : List basecoin.WriteOp) (err : GoError)
    (hload : pkg.LoadTx txBytes = .ok tx)
    (hfail : a.handler.DeliverTx
        (stack.NewContext a.state.GetChainID (a.logger.With "call" "delivertx"))
        a.state.CacheWrap tx = (ops, .error err)) :
    (a.DeliverTx pkg txBytes).app.state = a.state ∧
    (∀ k, (a.DeliverTx pkg txBytes).app.state.Get k = a.state.Get k) ∧
    (a.DeliverTx pkg txBytes).app.cacheState = a.cacheState ∧
    (a.DeliverTx pkg txBytes).ret = pkg.errorsResult err := by
  have h : a.DeliverTx pkg txBytes =
      ⟨a, pkg.errorsResult err,
        [app.Call.StateCacheWrap, app.Call.StateGetChainID,
         app.Call.HandlerDeliverTx
           (stack.NewContext a.state.GetChainID (a.logger.With "call" "delivertx"))
           a.state.CacheWrap tx]⟩ := by
    simp only [app.Basecoin.DeliverTx, hload, hfail]
  rw [h]
  exact ⟨rfl, fun _ => rfl, rfl, rfl⟩

/-- Instance of C1: the sample handler writes `[5]` at key `[1]` into its overlay and then
fails on the trailing byte; `State` still reads `[10]` at `[1]`. -/
theorem DeliverTx_discard_on_error_witness :
    sample.pkg.LoadTx [1, 5, 7] = .ok ⟨[1, 5, 7]⟩ ∧
    sample.app0.handler.DeliverTx
        (stack.NewContext sample.app0.state.GetChainID
          (sample.app0.logger.With "call" "delivertx"))
        sample.app0.state.CacheWrap ⟨[1, 5, 7]⟩
      = ([.Set [1] [5]], .error ⟨"trailing bytes"⟩) ∧
    ((sample.app0.DeliverTx sample.pkg [1, 5, 7]).app.state = sample.app0.state ∧
     (∀ k, (sample.app0.DeliverTx sample.pkg [1, 5, 7]).app.state.Get k
        = sample.app0.state.Get k) ∧
     (sample.app0.DeliverTx sample.pkg [1, 5, 7]).app.cacheState = sample.app0.cacheState ∧
     (sample.app0.DeliverTx sample.pkg [1, 5, 7]).ret
        = sample.pkg.errorsResult ⟨"trailing bytes"⟩) :=
  ⟨rfl, rfl,
    DeliverTx_discard_on_error sample.pkg sample.app0 [1, 5, 7] ⟨[1, 5, 7]⟩
      [.Set [1] [5]] ⟨"trailing bytes"⟩ rfl rfl⟩

/-- C2 (sequential visibility). When the transaction decodes, the handler's `DeliverTx`
succeeds with result `res`, and its overlay holds a pending write of `V` at `K` when it
returns, then after `Basecoin.DeliverTx` the `State` reads `V` at `K`, the returned result
is `res.ToABCI()`, and the next `Basecoin.DeliverTx` of any decodable transaction calls the
handler exactly once, on a fresh overlay (no pending writes) over that `State`, which reads
`V` at `K`. -/
theorem DeliverTx_sequential_visibility (pkg : app.Pkg) (a : app.Basecoin) (txBytes : Bytes)
    (tx : basecoin.Tx) (ops : List basecoin.WriteOp) (res : basecoin.Result) (K V : Bytes)
    (hload : pkg.LoadTx txBytes = .ok tx)
    (hok : a.handler.DeliverTx
        (stack.NewContext a.state.GetChainID (a.logger.With "call" "delivertx"))
        a.state.CacheWrap tx = (ops, .ok res))
    (hwrite : (a.state.CacheWrap.run ops).pending.lookup K = some (some V)) :
    (a.DeliverTx pkg txBytes).app.state.Get K = some V ∧
    (a.DeliverTx pkg txBytes).ret = pkg.ToABCI res ∧
    ∀ txBytes2 tx2, pkg.LoadTx txBytes2 = .ok tx2 →
      ∃ ctx2 cache2,
        (((a.DeliverTx pkg txBytes).app.DeliverTx pkg txBytes2).calls.filter
            app.Call.isHandler = [app.Call.HandlerDeliverTx ctx2 cache2 tx2]) ∧
        cache2 = (a.DeliverTx pkg txBytes).app.state.CacheWrap ∧
        cache2.pending = [] ∧
        cache2.Get K = some V := by
  have h : a.DeliverTx pkg txBytes =
      ⟨{ a with state := (a.state.CacheWrap.run ops).CacheSync }, pkg.ToABCI res,
        [app.Call.StateCacheWrap, app.Call.StateGetChainID,
         app.Call.HandlerDeliverTx
           (stack.NewContext a.state.GetChainID (a.logger.With "call" "delivertx"))
           a.state.CacheWrap tx] ++ [app.Call.CacheSync]⟩ := by
    simp only [app.Basecoin.DeliverTx, hload, hok]
  have hread : (a.state.CacheWrap.run ops).CacheSync.Get K = some V := by
    rw [sm.Cache.Get_CacheSync]
    simp [sm.Cache.Get, hwrite]
  rw [h]
  refine ⟨hread, rfl, ?_⟩
  intro txBytes2 tx2 hload2
  refine ⟨stack.NewContext (a.state.CacheWrap.run ops).CacheSync.GetChainID
      (a.logger.With "call" "delivertx"),
    (a.state.CacheWrap.run ops).CacheSync.CacheWrap, ?_, rfl, rfl, ?_⟩
  · simp only [app.Basecoin.DeliverTx, hload2]
    split <;> simp [app.Call.isHandler]
  · rw [sm.State.Get_CacheWrap]
    exact hread

/-- Instance of C2: the sample handler writes `[5]` at key `[1]` and succeeds. -/
theorem DeliverTx_sequential_visibility_witness :
    sample.pkg.LoadTx [1, 5] = .ok ⟨[1, 5]⟩ ∧
    sample.app0.handler.DeliverTx
        (stack.NewContext sample.app0.state.GetChainID
          (sample.app0.logger.With "call" "delivertx"))
        sample.app0.state.CacheWrap ⟨[1, 5]⟩
      = ([.Set [1] [5]], .ok { Data := [5], Log := "ok" }) ∧
    (sample.app0.state.CacheWrap.run [.Set [1] [5]]).pending.lookup [1] = some (some [5]) ∧
    ((sample.app0.DeliverTx sample.pkg [1, 5]).app.state.Get [1] = some [5] ∧
     (sample.app0.DeliverTx sample.pkg [1, 5]).ret
        = sample.pkg.ToABCI { Data := [5], Log := "ok" } ∧
     ∀ txBytes2 tx2, sample.pkg.LoadTx txBytes2 = .ok tx2 →
      ∃ ctx2 cache2,
        (((sample.app0.DeliverTx sample.pkg [1, 5]).app.DeliverTx sample.pkg txBytes2).calls.filter
            app.Call.isHandler = [app.Call.HandlerDeliverTx ctx2 cache2 tx2]) ∧
        cache2 = (sample.app0.DeliverTx sample.pkg [1, 5]).app.state.CacheWrap ∧
        cache2.pending = [] ∧
        cache2.Get [1] = some [5]) :=
  ⟨rfl, rfl, by decide,
    DeliverTx_sequential_visibility sample.pkg sample.app0 [1, 5] ⟨[1, 5]⟩
      [.Set [1] [5]] { Data := [5], Log := "ok" } [1] [5] rfl rfl (by decide)⟩

/-- C3 (CheckTx does not mutate committed state). For every application, every handler and
every `txBytes`, after `Basecoin.CheckTx` the `State` is the one before the call: every
key reads the same value and the chain identifier is the same. The only field of the
application that can differ is `cacheState`, and when the transaction decodes the overlay
it points to is the previous one after the writes the handler performed. -/
theorem CheckTx_state_unchanged (pkg : app.Pkg) (a : app.Basecoin) (txBytes : Bytes) :
    (a.CheckTx pkg txBytes).app.state = a.state ∧
    (∀ k, (a.CheckTx pkg txBytes).app.state.Get k = a.state.Get k) ∧
    (a.CheckTx pkg txBytes).app.state.GetChainID = a.state.GetChainID ∧
    (a.CheckTx pkg txBytes).app
      = { a with cacheState := (a.CheckTx pkg txBytes).app.cacheState } ∧
    (∀ tx, pkg.LoadTx txBytes = .ok tx →
      (a.CheckTx pkg txBytes).app.cacheView
        = a.cacheView.map (fun c => c.run (a.handler.CheckTx
            (stack.NewContext a.state.GetChainID (a.logger.With "call" "checktx"))
            a.cacheView tx).1)) := by
  have hst : (a.CheckTx pkg txBytes).app
      = { a with cacheState := (a.CheckTx pkg txBytes).app.cacheState } := by
    simp only [app.Basecoin.CheckTx]
    split
    · rfl
    · split <;> rfl
  have hs : (a.CheckTx pkg txBytes).app.state = a.state := by rw [hst]
  refine ⟨hs, fun k => by rw [hs], by rw [hs], hst, ?_⟩
  intro tx hload
  have hc : (a.CheckTx pkg txBytes).app.cacheState
      = a.cacheView.map (fun c => (c.run (a.handler.CheckTx
            (stack.NewContext a.state.GetChainID (a.logger.With "call" "checktx"))
            a.cacheView tx).1).pending) := by
    simp only [app.Basecoin.CheckTx, hload]
    split <;> rfl
  simp only [app.Basecoin.cacheView, hs, hc, Option.map_map]
  cases a.cacheState with
  | none => rfl
  | some p =>
    simp only [Option.map_some', Function.comp, Option.some.injEq]
    generalize (a.handler.CheckTx _ _ tx).1 = ops
    have hp := sm.Cache.parent_run { parent := a.state, pending := p } ops
    cases hrun : sm.Cache.run { parent := a.state, pending := p } ops with
    | mk par pen =>
      rw [hrun] at hp
      simp only at hp
      rw [hp]

/-- C4 (Commit replaces the check cache). When the store commit succeeds, `Basecoin.Commit`
returns the store's result and leaves `cacheState` a fresh overlay over `State` with no
pending write: every key reads through it what it reads from the committed `State`, which
is what it read from `State` before the call; nothing of the previous `cacheState` is left,
the application after `Commit` being the same whatever the previous `cacheState` held. -/
theorem Commit_replaces_cacheState (pkg : app.Pkg) (a : app.Basecoin)
    (hok : (a.state.Commit a.eyesCli).2.IsErr = false) :
    (a.Commit pkg).ret = .ret (a.state.Commit a.eyesCli).2 ∧
    (a.Commit pkg).app.cacheState = some [] ∧
    (a.Commit pkg).app.cacheView = some (a.Commit pkg).app.state.CacheWrap ∧
    (∀ k, (a.Commit pkg).app.state.CacheWrap.Get k = (a.Commit pkg).app.state.Get k) ∧
    (∀ k, (a.Commit pkg).app.state.Get k = a.state.Get k) ∧
    (∀ prev : Option sm.Pending,
      (app.Basecoin.Commit pkg { a with cacheState := prev }).app.cacheView
          = (a.Commit pkg).app.cacheView ∧
      (app.Basecoin.Commit pkg { a with cacheState := prev }).app.state
          = (a.Commit pkg).app.state) := by
  have h : a.Commit pkg =
      ⟨{ a with state := (a.state.Commit a.eyesCli).1,
                cacheState := some (a.state.Commit a.eyesCli).1.CacheWrap.pending },
        .ret (a.state.Commit a.eyesCli).2,
        [app.Call.StateCommit, app.Call.StateCacheWrap]⟩ := by
    simp only [app.Basecoin.Commit, hok]
    rfl
  refine ⟨by rw [h], by rw [h]; rfl, by rw [h]; rfl, fun k => sm.State.Get_CacheWrap _ k,
    fun k => by rw [h]; rfl, ?_⟩
  intro prev
  have hp : app.Basecoin.Commit pkg { a with cacheState := prev } =
      ⟨{ a with state := (a.state.Commit a.eyesCli).1,
                cacheState := some (a.state.Commit a.eyesCli).1.CacheWrap.pending },
        .ret (a.state.Commit a.eyesCli).2,
        [app.Call.StateCommit, app.Call.StateCacheWrap]⟩ := by
    simp only [app.Basecoin.Commit, hok]
    rfl
  rw [h, hp]
  exact ⟨rfl, rfl⟩

/-- Instance of C4: after a first `Commit` the sample `CheckTx` leaves a pending write at
key `[1]` in `cacheState`; the next `Commit` replaces it. -/
theorem Commit_replaces_cacheState_witness :
    ((sample.app0.Commit sample.pkg).app.CheckTx sample.pkg [1, 5]).app.cacheState
      = some [([1], some [5])] ∧
    ((((sample.app0.Commit sample.pkg).app.CheckTx sample.pkg [1, 5]).app.state.Commit
        ((sample.app0.Commit sample.pkg).app.CheckTx sample.pkg [1, 5]).app.eyesCli).2.IsErr
      = false) ∧
    (app.Basecoin.Commit sample.pkg
        ((sample.app0.Commit sample.pkg).app.CheckTx sample.pkg [1, 5]).app).app.cacheState
      = some [] :=
  ⟨by decide, by decide,
    (Commit_replaces_cacheState sample.pkg
      ((sample.app0.Commit sample.pkg).app.CheckTx sample.pkg [1, 5]).app (by decide)).2.1⟩

/-- C5 (empty query rejection). For a request whose `Data` has length zero, whatever its
other fields, `Basecoin.Query` returns the zero response with `Code = EncodingError` and
`Log = "Query cannot be zero length"`, makes no call on any collaborator (so `QuerySync` is
not invoked), and leaves the application as it was. -/
theorem Query_empty_rejected (a : app.Basecoin) (reqQuery : abci.RequestQuery)
    (hlen : reqQuery.Data.length = 0) :
    (a.Query reqQuery).ret.Code = abci.CodeType_EncodingError ∧
    (a.Query reqQuery).ret.Log = "Query cannot be zero length" ∧
    (a.Query reqQuery).calls = [] ∧
    (∀ req, app.Call.QuerySync req ∉ (a.Query reqQuery).calls) ∧
    (a.Query reqQuery).app = a := by
  have h : a.Query reqQuery =
      ⟨a, { abci.ResponseQuery.zero with
              Log := "Query cannot be zero length", Code := abci.CodeType_EncodingError }, []⟩ := by
    simp only [app.Basecoin.Query, hlen, if_true]
  rw [h]
  exact ⟨rfl, rfl, rfl, fun _ => List.not_mem_nil _, rfl⟩

/-- Instance of C5: an empty query with a path, a height and the proof flag set. -/
theorem Query_empty_rejected_witness :
    (({ Data := [], Path := "/key", Height := 3, Prove := true } : abci.RequestQuery).Data.length
      = 0) ∧
    ((sample.app0.Query { Data := [], Path := "/key", Height := 3, Prove := true }).ret.Code
      = abci.CodeType_EncodingError ∧
     (sample.app0.Query { Data := [], Path := "/key", Height := 3, Prove := true }).ret.Log
      = "Query cannot be zero length" ∧
     (sample.app0.Query { Data := [], Path := "/key", Height := 3, Prove := true }).calls = [] ∧
     (∀ req, app.Call.QuerySync req ∉
       (sample.app0.Query { Data := [], Path := "/key", Height := 3, Prove := true }).calls) ∧
     (sample.app0.Query { Data := [], Path := "/key", Height := 3, Prove := true }).app
      = sample.app0) :=
  ⟨rfl, Query_empty_rejected sample.app0
    { Data := [], Path := "/key", Height := 3, Prove := true } rfl⟩

/-- C6, amended (SetOption chain-id). Whatever `State.SetChainID` does besides setting the
chain identifier, for every value `v` the call `Basecoin.SetOption("base/chain_id", v)`
makes exactly one collaborator call, `State.SetChainID(v)`, and none on the handler; `State`
afterwards is what that call leaves, so its chain identifier is `v`; the returned string is
`"Success"`; the pending writes of `cacheState` are as they were; and a key reads from
`State` what it read before whenever `SetChainID` leaves that key alone. With the modelled
`sm.State.SetChainID` this is `Basecoin.SetOption`. -/
theorem SetOption_chain_id (setChainID : sm.State → String → sm.State)
    (hset : ∀ s v, (setChainID s v).GetChainID = v) (a : app.Basecoin) (v : String) :
    app.ChainKey = "base/chain_id" ∧
    (a.SetOptionVia setChainID app.ChainKey v).app.state = setChainID a.state v ∧
    (a.SetOptionVia setChainID app.ChainKey v).app.state.GetChainID = v ∧
    (a.SetOptionVia setChainID app.ChainKey v).ret = "Success" ∧
    (a.SetOptionVia setChainID app.ChainKey v).calls = [app.Call.StateSetChainID v] ∧
    (a.SetOptionVia setChainID app.ChainKey v).calls.filter app.Call.isHandler = [] ∧
    (a.SetOptionVia setChainID app.ChainKey v).app.cacheState = a.cacheState ∧
    (∀ k, (setChainID a.state v).Get k = a.state.Get k →
      (a.SetOptionVia setChainID app.ChainKey v).app.state.Get k = a.state.Get k) ∧
    (∀ key value, a.SetOptionVia sm.State.SetChainID key value = a.SetOption key value) := by
  have h : a.SetOptionVia setChainID app.ChainKey v =
      ⟨{ a with state := setChainID a.state v }, "Success", [app.Call.StateSetChainID v]⟩ := by
    simp only [app.Basecoin.SetOptionVia, if_true]
  rw [h]
  exact ⟨rfl, rfl, hset a.state v, rfl, rfl, rfl, rfl, fun _ hk => hk, fun _ _ => rfl⟩

/-- Instance of C6, amended: the modelled `sm.State.SetChainID` on the sample
application. -/
theorem SetOption_chain_id_witness :
    (∀ s v, (sm.State.SetChainID s v).GetChainID = v) ∧
    (sample.app0.SetOptionVia sm.State.SetChainID app.ChainKey "test-chain").app.state.GetChainID
      = "test-chain" ∧
    (sample.app0.SetOptionVia sm.State.SetChainID app.ChainKey "test-chain").ret = "Success" ∧
    (sample.app0.SetOptionVia sm.State.SetChainID app.ChainKey "test-chain").calls
      = [app.Call.StateSetChainID "test-chain"] :=
  ⟨fun _ _ => rfl,
   (SetOption_chain_id sm.State.SetChainID (fun _ _ => rfl) sample.app0 "test-chain").2.2.1,
   (SetOption_chain_id sm.State.SetChainID (fun _ _ => rfl) sample.app0 "test-chain").2.2.2.1,
   (SetOption_chain_id sm.State.SetChainID (fun _ _ => rfl) sample.app0
      "test-chain").2.2.2.2.1⟩

/-- Counterexample to C6 as stated: a `State.SetChainID` that sets the chain identifier and
stores it under the reserved key. `SetOption("base/chain_id", "test-chain")` then sets the
identifier and returns `"Success"`, but the key `base/chain_id`, absent from `State`
before the call, reads the identifier afterwards: a key-value entry of `State` changed. -/
theorem SetOption_chain_id_counterexample :
    (sample.app0.SetOptionVia sample.storingSetChainID app.ChainKey
        "test-chain").app.state.GetChainID = "test-chain" ∧
    (sample.app0.SetOptionVia sample.storingSetChainID app.ChainKey "test-chain").ret
      = "Success" ∧
    sample.app0.state.Get (sample.bytesOf "base/chain_id") = none ∧
    (sample.app0.SetOptionVia sample.storingSetChainID app.ChainKey
        "test-chain").app.state.Get (sample.bytesOf "base/chain_id")
      = some (sample.bytesOf "test-chain") ∧
    (sample.app0.SetOptionVia sample.storingSetChainID app.ChainKey
        "test-chain").app.state.Get (sample.bytesOf "base/chain_id")
      ≠ sample.app0.state.Get (sample.bytesOf "base/chain_id") := by
  decide

/-- C7 (SetOption delegation). For a key other than the reserved chain-id key,
`Basecoin.SetOption` makes exactly one collaborator call, the handler's `SetOption` on
`State` itself with the application's logger and that key and value; `State` afterwards is
the state the handler left; the returned string is the handler's log when the handler
succeeds and `"Error: "` followed by the error's message when it fails. -/
theorem SetOption_delegates (a : app.Basecoin) (key value : String)
    (hkey : key ≠ app.ChainKey) :
    (a.SetOption key value).calls = [app.Call.HandlerSetOption a.logger a.state key value] ∧
    (a.SetOption key value).app.state = (a.handler.SetOption a.logger a.state key value).1 ∧
    (a.SetOption key value).app.cacheState = a.cacheState ∧
    (∀ log, (a.handler.SetOption a.logger a.state key value).2 = .ok log →
      (a.SetOption key value).ret = log) ∧
    (∀ err, (a.handler.SetOption a.logger a.state key value).2 = .error err →
      (a.SetOption key value).ret = "Error: " ++ err.Error) := by
  simp only [app.Basecoin.SetOption, if_neg hkey]
  cases hr : (a.handler.SetOption a.logger a.state key value).2 with
  | ok log =>
    refine ⟨rfl, rfl, rfl, ?_, ?_⟩
    · intro log1 h1
      cases h1
      rfl
    · intro err h1
      cases h1
  | error err =>
    refine ⟨rfl, rfl, rfl, ?_, ?_⟩
    · intro log1 h1
      cases h1
    · intro err1 h1
      cases h1
      rfl

/-- Instance of C7: the sample handler rejects the empty value for key `"coin/issuer"`. -/
theorem SetOption_delegates_witness :
    "coin/issuer" ≠ app.ChainKey ∧
    (sample.app0.handler.SetOption sample.app0.logger sample.app0.state "coin/issuer" "").2
      = .error ⟨"empty value"⟩ ∧
    (sample.app0.SetOption "coin/issuer" "").calls
      = [app.Call.HandlerSetOption sample.app0.logger sample.app0.state "coin/issuer" ""] ∧
    (sample.app0.SetOption "coin/issuer" "").ret = "Error: " ++ "empty value" :=
  ⟨by decide, rfl,
    (SetOption_delegates sample.app0 "coin/issuer" "" (by decide)).1,
    (SetOption_delegates sample.app0 "coin/issuer" "" (by decide)).2.2.2.2 ⟨"empty value"⟩ rfl⟩

/-- C8 (decode failure short-circuits). When `LoadTx` fails on `txBytes`, both
`Basecoin.DeliverTx` and `Basecoin.CheckTx` return `errors.Result` of the decode error,
make no collaborator call (no handler call, no `CacheWrap`), and leave the application,
`State` and `cacheState` included, as it was. -/
theorem decode_failure_short_circuits (pkg : app.Pkg) (a : app.Basecoin) (txBytes : Bytes)
    (err : GoError) (hload : pkg.LoadTx txBytes = .error err) :
    ((a.DeliverTx pkg txBytes).ret = pkg.errorsResult err ∧
     (a.DeliverTx pkg txBytes).calls = [] ∧
     (a.DeliverTx pkg txBytes).app = a) ∧
    ((a.CheckTx pkg txBytes).ret = pkg.errorsResult err ∧
     (a.CheckTx pkg txBytes).calls = [] ∧
     (a.CheckTx pkg txBytes).app = a) := by
  have hd : a.DeliverTx pkg txBytes = ⟨a, pkg.errorsResult err, []⟩ := by
    simp only [app.Basecoin.DeliverTx, hload]
  have hc : a.CheckTx pkg txBytes = ⟨a, pkg.errorsResult err, []⟩ := by
    simp only [app.Basecoin.CheckTx, hload]
  rw [hd, hc]
  exact ⟨⟨rfl, rfl, rfl⟩, ⟨rfl, rfl, rfl⟩⟩

/-- Instance of C8: the sample decoder rejects the empty byte string. -/
theorem decode_failure_short_circuits_witness :
    sample.pkg.LoadTx [] = .error ⟨"empty tx"⟩ ∧
    (((sample.app0.DeliverTx sample.pkg []).ret = sample.pkg.errorsResult ⟨"empty tx"⟩ ∧
      (sample.app0.DeliverTx sample.pkg []).calls = [] ∧
      (sample.app0.DeliverTx sample.pkg []).app = sample.app0) ∧
     ((sample.app0.CheckTx sample.pkg []).ret = sample.pkg.errorsResult ⟨"empty tx"⟩ ∧
      (sample.app0.CheckTx sample.pkg []).calls = [] ∧
      (sample.app0.CheckTx sample.pkg []).app = sample.app0)) :=
  ⟨rfl, decode_failure_short_circuits sample.pkg sample.app0 [] ⟨"empty tx"⟩ rfl⟩

/-! ## The typed integer accessor -/

/-- C9 (`Integer.Get`). For every store content, codec and encoding, `Get` leaves the store
as it was; it returns 0 when the raw bytes are nil (key absent); it returns the decoded
value when the stored bytes decode; and it panics exactly when the key is present and its
bytes fail to decode. -/
theorem Integer_Get_spec (cd : state.Codec) (v : state.Integer) (ctx : state.Context) :
    (v.Get cd ctx).1 = ctx ∧
    (v.Value.GetRaw ctx = none → (v.Get cd ctx).2 = .ret 0) ∧
    (∀ bz res, v.Value.GetRaw ctx = some bz → cd.DecodeInt bz v.enc = (res, none) →
      (v.Get cd ctx).2 = .ret res) ∧
    ((v.Get cd ctx).2.panics = true ↔
      ∃ bz, v.Value.GetRaw ctx = some bz ∧ (cd.DecodeInt bz v.enc).2 ≠ none) := by
  unfold state.Integer.Get
  cases hraw : v.Value.GetRaw ctx with
  | none => simp [Outcome.panics]
  | some bz =>
    rcases hdec : cd.DecodeInt bz v.enc with ⟨res, _ | err⟩
    · simp only [hdec]
      refine ⟨trivial, ?_, ?_, ?_⟩
      · intro h
        cases h
      · intro b r hb hd
        cases hb
        rw [hdec] at hd
        cases hd
        rfl
      · constructor
        · intro h
          cases h
        · rintro ⟨b, hb, hne⟩
          cases hb
          rw [hdec] at hne
          exact absurd rfl hne
    · simp only [hdec]
      refine ⟨trivial, ?_, ?_, ?_⟩
      · intro h
        cases h
      · intro b r hb hd
        cases hb
        rw [hdec] at hd
        cases hd
      · constructor
        · intro _
          exact ⟨bz, rfl, by rw [hdec]; simp⟩
        · intro _
          rfl

/-- Instance of C9 on the sample counter: absent key, eight stored bytes, two stored
bytes. -/
theorem Integer_Get_spec_witness :
    (sample.counter.Get sample.codec ⟨[]⟩).2 = .ret 0 ∧
    (sample.counter.Get sample.codec ⟨[([9], [0, 0, 0, 0, 0, 0, 1, 2])]⟩).2 = .ret 258 ∧
    (sample.counter.Get sample.codec ⟨[([9], [1, 2])]⟩).2.panics = true :=
  ⟨(Integer_Get_spec sample.codec sample.counter ⟨[]⟩).2.1 rfl,
   (Integer_Get_spec sample.codec sample.counter ⟨[([9], [0, 0, 0, 0, 0, 0, 1, 2])]⟩).2.2.1
      [0, 0, 0, 0, 0, 0, 1, 2] 258 rfl (by decide),
   (Integer_Get_spec sample.codec sample.counter ⟨[([9], [1, 2])]⟩).2.2.2.mpr
      ⟨[1, 2], rfl, by decide⟩⟩

/-- C10 (`Integer.GetSafe`). For every store content, codec and encoding, `GetSafe` returns
a pair (its result has no panic case) and leaves the store as it was; it returns
`(0, ErrEmptyValue())` exactly when the raw bytes are nil; it returns `ErrUnmarshal(e)`
exactly when the key is present and decoding its bytes fails with `e`; when the bytes
decode it returns the decoded value and no error; whenever it returns `(val, nil)`, `Get`
returns `val`; and `Get` panics exactly when `GetSafe` returns an unmarshal error. -/
theorem Integer_GetSafe_spec (cd : state.Codec) (v : state.Integer) (ctx : state.Context) :
    (v.GetSafe cd ctx).1 = ctx ∧
    ((v.GetSafe cd ctx).2 = (0, some state.ErrEmptyValue) ↔ v.Value.GetRaw ctx = none) ∧
    (∀ e, (v.GetSafe cd ctx).2.2 = some (state.ErrUnmarshal e) ↔
      ∃ bz, v.Value.GetRaw ctx = some bz ∧ (cd.DecodeInt bz v.enc).2 = some e) ∧
    (∀ bz res, v.Value.GetRaw ctx = some bz → cd.DecodeInt bz v.enc = (res, none) →
      (v.GetSafe cd ctx).2 = (res, none)) ∧
    (∀ val, (v.GetSafe cd ctx).2 = (val, none) → (v.Get cd ctx).2 = .ret val) ∧
    ((v.Get cd ctx).2.panics = true ↔
      ∃ e, (v.GetSafe cd ctx).2.2 = some (state.ErrUnmarshal e)) := by
  unfold state.Integer.GetSafe state.Integer.Get
  cases hraw : v.Value.GetRaw ctx with
  | none => simp [Outcome.panics, state.ErrEmptyValue, state.ErrUnmarshal]
  | some bz =>
    rcases hdec : cd.DecodeInt bz v.enc with ⟨res, _ | err⟩
    · simp [Outcome.panics, hdec, state.ErrEmptyValue, state.ErrUnmarshal]
      intro b r hb hd
      subst hb
      rw [hdec] at hd
      cases hd
      rfl
    · simp [Outcome.panics, hdec, state.ErrEmptyValue, state.ErrUnmarshal]
      intro b r hb hd
      subst hb
      rw [hdec] at hd
      cases hd

/-- Instance of C10 on the sample counter: absent key, two stored bytes, eight stored
bytes. -/
theorem Integer_GetSafe_spec_witness :
    (sample.counter.GetSafe sample.codec ⟨[]⟩).2 = (0, some state.ErrEmptyValue) ∧
    (sample.counter.GetSafe sample.codec ⟨[([9], [1, 2])]⟩).2.2
      = some (state.ErrUnmarshal ⟨"invalid length"⟩) ∧
    (sample.counter.GetSafe sample.codec ⟨[([9], [0, 0, 0, 0, 0, 0, 1, 2])]⟩).2 = (258, none) :=
  ⟨(Integer_GetSafe_spec sample.codec sample.counter ⟨[]⟩).2.1.mpr rfl,
   ((Integer_GetSafe_spec sample.codec sample.counter ⟨[([9], [1, 2])]⟩).2.2.1
      ⟨"invalid length"⟩).mpr ⟨[1, 2], rfl, by decide⟩,
   (Integer_GetSafe_spec sample.codec sample.counter
      ⟨[([9], [0, 0, 0, 0, 0, 0, 1, 2])]⟩).2.2.2.1 [0, 0, 0, 0, 0, 0, 1, 2] 258 rfl (by decide)⟩

/-! ## The integer encodings -/

namespace sample

theorem ofBE_append_single (l : Bytes) (b : Nat) : ofBE (l ++ [b]) = ofBE l * 256 + b := by
  simp [ofBE, List.foldl_append]

theorem length_toBE (w n : Nat) : (toBE w n).length = w := by
  induction w generalizing n with
  | zero => rfl
  | succ w ih => simp [toBE, ih]

/-- Decoding `w` big-endian digits of `n` gives `n` modulo `256 ^ w`. -/
theorem ofBE_toBE (w n : Nat) : ofBE (toBE w n) = n % 256 ^ w := by
  induction w generalizing n with
  | zero => simp [toBE, ofBE, Nat.mod_one]
  | succ w ih =>
    rw [toBE, ofBE_append_single, ih, pow_succ, Nat.mul_comm (256 ^ w) 256, Nat.mod_mul]
    ring

end sample

namespace state

/-- A varint of `w + 1` bytes holds every number below `128 ^ (w + 1)`. -/
theorem uvarint_putUvarint (w n : Nat) (h : n < 128 ^ (w + 1)) :
    uvarint (putUvarint (w + 1) n) = some n := by
  induction w generalizing n with
  | zero =>
    have hn : n < 128 := by simpa using h
    simp [putUvarint, uvarint, hn]
  | succ w ih =>
    by_cases hn : n < 128
    · simp [putUvarint, uvarint, hn]
    · have hdiv : n / 128 < 128 ^ (w + 1) := by
        rw [Nat.div_lt_iff_lt_mul (by norm_num)]
        calc n < 128 ^ (w + 1 + 1) := h
          _ = 128 ^ (w + 1) * 128 := by rw [pow_succ]
      have hrec := ih (n / 128) hdiv
      rw [putUvarint, if_neg hn, uvarint, if_neg (by omega), hrec]
      simp only [Option.map_some', Option.some.injEq]
      omega

/-- The round trip of the two supported encodings on `uint64` values. -/
theorem DecodeInt_EncodeInt (v : Nat) (hv : v < 2 ^ 64) (enc : IntEncoding)
    (henc : Supported enc = true) : DecodeInt (EncodeInt v enc) enc = (v, none) := by
  have hmod : v % 2 ^ 64 = v := Nat.mod_eq_of_lt hv
  by_cases hf : enc = FixedWidth
  · subst hf
    simp only [DecodeInt, EncodeInt, if_true, sample.length_toBE, sample.ofBE_toBE, hmod]
    have h256 : (256 : Nat) ^ 8 = 2 ^ 64 := by norm_num
    rw [h256, hmod]
  · have hv2 : enc = Varint := by
      simp only [Supported, Bool.or_eq_true, beq_iff_eq] at henc
      rcases henc with h | h
      · exact absurd h hf
      · exact h
    subst hv2
    have hlt : v < 128 ^ (9 + 1) := lt_of_lt_of_le hv (by norm_num)
    have hrt := uvarint_putUvarint 9 v hlt
    simp only [DecodeInt, EncodeInt, if_neg hf, if_true, hmod, hrt, if_pos hv]

theorem Value.GetRaw_SetRaw (v : Value) (ctx : Context) (bz : Bytes) :
    v.GetRaw (v.SetRaw ctx bz) = some bz := by
  simp [Value.GetRaw, Value.SetRaw, List.lookup_cons]

/-- With a codec that round-trips `value`, `Get` after `Set` returns `value`. -/
theorem Integer.Get_after_Set (cd : Codec) (v : Integer) (ctx : Context) (value : Nat)
    (hrt : cd.DecodeInt (cd.EncodeInt value v.enc) v.enc = (value, none)) :
    (v.Get cd (v.Set cd ctx value)).2 = .ret value := by
  simp only [Integer.Get, Integer.Set, Value.GetRaw_SetRaw, hrt]

/-- With a codec that round-trips `value`, `GetSafe` after `Set` returns `value`. -/
theorem Integer.GetSafe_after_Set (cd : Codec) (v : Integer) (ctx : Context) (value : Nat)
    (hrt : cd.DecodeInt (cd.EncodeInt value v.enc) v.enc = (value, none)) :
    (v.GetSafe cd (v.Set cd ctx value)).2 = (value, none) := by
  simp only [Integer.GetSafe, Integer.Set, Value.GetRaw_SetRaw, hrt]

end state

/-- C11 (Set/Get round trip). For every `uint64` value `v` and every supported encoding
`enc`, `DecodeInt(EncodeInt(v, enc), enc)` is `v` with no error; hence, for an `Integer`
built with that encoding over any key and any store, after `Set(ctx, v)` the call
`Get(ctx)` returns `v` and `GetSafe(ctx)` returns `(v, nil)`, which is never the
empty-value error, also for `v = 0`. -/
theorem Set_Get_round_trip (v : Nat) (hv : v < 2 ^ 64) (enc : state.IntEncoding)
    (henc : state.Supported enc = true) (val : state.Value) (ctx : state.Context) :
    state.DecodeInt (state.EncodeInt v enc) enc = (v, none) ∧
    ((state.NewInteger val enc).Get state.specCodec
        ((state.NewInteger val enc).Set state.specCodec ctx v)).2 = .ret v ∧
    ((state.NewInteger val enc).GetSafe state.specCodec
        ((state.NewInteger val enc).Set state.specCodec ctx v)).2 = (v, none) ∧
    ((state.NewInteger val enc).GetSafe state.specCodec
        ((state.NewInteger val enc).Set state.specCodec ctx v)).2.2
      ≠ some state.ErrEmptyValue := by
  have hrt := state.DecodeInt_EncodeInt v hv enc henc
  have hsafe :=
    state.Integer.GetSafe_after_Set state.specCodec (state.NewInteger val enc) ctx v hrt
  refine ⟨hrt, state.Integer.Get_after_Set state.specCodec (state.NewInteger val enc) ctx v hrt,
    hsafe, ?_⟩
  rw [hsafe]
  simp

/-- Instance of C11: the value 0 in the varint encoding, written to an empty store, reads
back as a present value. -/
theorem Set_Get_round_trip_witness :
    (0 : Nat) < 2 ^ 64 ∧ state.Supported state.Varint = true ∧
    (state.DecodeInt (state.EncodeInt 0 state.Varint) state.Varint = (0, none) ∧
     ((state.NewInteger ⟨[9]⟩ state.Varint).Get state.specCodec
        ((state.NewInteger ⟨[9]⟩ state.Varint).Set state.specCodec ⟨[]⟩ 0)).2 = .ret 0 ∧
     ((state.NewInteger ⟨[9]⟩ state.Varint).GetSafe state.specCodec
        ((state.NewInteger ⟨[9]⟩ state.Varint).Set state.specCodec ⟨[]⟩ 0)).2 = (0, none) ∧
     ((state.NewInteger ⟨[9]⟩ state.Varint).GetSafe state.specCodec
        ((state.NewInteger ⟨[9]⟩ state.Varint).Set state.specCodec ⟨[]⟩ 0)).2.2
      ≠ some state.ErrEmptyValue) :=
  ⟨by norm_num, rfl,
    Set_Get_round_trip 0 (by norm_num) state.Varint rfl ⟨[9]⟩ ⟨[]⟩⟩

/-! ## Increments -/

namespace state

theorem Integer.Get_fst (cd : Codec) (v : Integer) (ctx : Context) : (v.Get cd ctx).1 = ctx := by
  unfold Integer.Get
  cases v.Value.GetRaw ctx with
  | none => rfl
  | some bz =>
    rcases hdec : cd.DecodeInt bz v.enc with ⟨res, _ | err⟩ <;> simp only [hdec]

theorem Integer.Get_absent (cd : Codec) (v : Integer) (ctx : Context)
    (habs : v.Value.GetRaw ctx = none) : (v.Get cd ctx).2 = .ret 0 := by
  simp only [Integer.Get, habs]

/-- What `Incr` does when the `Get` it starts with returns `g`. -/
theorem Integer.Incr_of_Get (cd : Codec) (v : Integer) (ctx : Context) (g : Nat)
    (hget : (v.Get cd ctx).2 = .ret g) :
    v.Incr cd ctx = (v.Set cd ctx ((g + 1) % 2 ^ 64), .ret ((g + 1) % 2 ^ 64)) := by
  have hpair : v.Get cd ctx = (ctx, .ret g) := Prod.ext (Integer.Get_fst cd v ctx) hget
  simp only [Integer.Incr, hpair]

/-- Successive increments count upwards from the value `Get` returns, below `2 ^ 64`. -/
theorem Integer.IncrN_of_Get (cd : Codec) (v : Integer)
    (hrt : ∀ m, m < 2 ^ 64 → cd.DecodeInt (cd.EncodeInt m v.enc) v.enc = (m, none))
    (n : Nat) (ctx : Context) (g : Nat) (hget : (v.Get cd ctx).2 = .ret g)
    (hlt : g + n < 2 ^ 64) :
    (v.IncrN cd n ctx).2 = (List.range n).map (fun i => Outcome.ret (g + i + 1)) := by
  induction n generalizing ctx g with
  | zero => rfl
  | succ n ih =>
    have hmod : (g + 1) % 2 ^ 64 = g + 1 := Nat.mod_eq_of_lt (by omega)
    have hincr := Integer.Incr_of_Get cd v ctx g hget
    rw [hmod] at hincr
    have hnext : (v.Get cd (v.Set cd ctx (g + 1))).2 = .ret (g + 1) :=
      Integer.Get_after_Set cd v ctx (g + 1) (hrt (g + 1) (by omega))
    have hrest := ih (v.Set cd ctx (g + 1)) (g + 1) hnext (by omega)
    simp only [Integer.IncrN, hincr, hrest, List.range_succ_eq_map, List.map_cons,
      List.map_map]
    congr 1
    apply List.map_congr_left
    intro i _
    simp only [Function.comp, Nat.succ_eq_add_one]
    congr 1
    omega

end state

/-- Counterexample to C12 as stated: with the stored value `2 ^ 64 - 1` (eight bytes 255 in
the fixed-width encoding) `Get` returns `18446744073709551615` and `Incr` returns 0, which
is not that value plus one. -/
theorem Incr_successor_counterexample :
    (sample.counter.Get state.specCodec
        ⟨[([9], [255, 255, 255, 255, 255, 255, 255, 255])]⟩).2 = .ret 18446744073709551615 ∧
    (sample.counter.Incr state.specCodec
        ⟨[([9], [255, 255, 255, 255, 255, 255, 255, 255])]⟩).2 = .ret 0 ∧
    (sample.counter.Incr state.specCodec
        ⟨[([9], [255, 255, 255, 255, 255, 255, 255, 255])]⟩).2
      ≠ .ret (18446744073709551615 + 1) := by
  decide

/-- C12, amended (`Integer.Incr`). When the key is absent or holds decodable bytes, so that
`Get` returns `g`: `Incr` returns `(g + 1) mod 2 ^ 64`, which is `g + 1` whenever
`g < 2 ^ 64 - 1`; the store afterwards is the one `Set` leaves with that returned value,
holding exactly its encoding under the key; and with a codec that round-trips the returned
value a `Get` right afterwards returns it. `Incr` on an absent key returns 1, and with a
codec that round-trips every `uint64`, `n < 2 ^ 64` successive calls on an absent key
return 1, 2, ..., n. The two round-trip provisos hold for the supported encodings of the
spec codec. -/
theorem Incr_spec (cd : state.Codec) (v : state.Integer) (ctx : state.Context) :
    (∀ g, (v.Get cd ctx).2 = .ret g →
      (v.Incr cd ctx).2 = .ret ((g + 1) % 2 ^ 64) ∧
      (g < 2 ^ 64 - 1 → (v.Incr cd ctx).2 = .ret (g + 1)) ∧
      (v.Incr cd ctx).1 = v.Set cd ctx ((g + 1) % 2 ^ 64) ∧
      v.Value.GetRaw (v.Incr cd ctx).1 = some (cd.EncodeInt ((g + 1) % 2 ^ 64) v.enc) ∧
      (cd.DecodeInt (cd.EncodeInt ((g + 1) % 2 ^ 64) v.enc) v.enc
          = ((g + 1) % 2 ^ 64, none) →
        (v.Get cd (v.Incr cd ctx).1).2 = (v.Incr cd ctx).2)) ∧
    (v.Value.GetRaw ctx = none → (v.Incr cd ctx).2 = .ret 1) ∧
    (∀ n, n < 2 ^ 64 → v.Value.GetRaw ctx = none →
      (∀ m, m < 2 ^ 64 → cd.DecodeInt (cd.EncodeInt m v.enc) v.enc = (m, none)) →
      (v.IncrN cd n ctx).2 = (List.range n).map (fun i => Outcome.ret (i + 1))) ∧
    (state.Supported v.enc = true →
      (∀ g, (v.Get state.specCodec ctx).2 = .ret g →
        (v.Get state.specCodec (v.Incr state.specCodec ctx).1).2
          = (v.Incr state.specCodec ctx).2) ∧
      (∀ n, n < 2 ^ 64 → v.Value.GetRaw ctx = none →
        (v.IncrN state.specCodec n ctx).2
          = (List.range n).map (fun i => Outcome.ret (i + 1)))) := by
  have hcount : ∀ (cd0 : state.Codec) (n : Nat), n < 2 ^ 64 → v.Value.GetRaw ctx = none →
      (∀ m, m < 2 ^ 64 → cd0.DecodeInt (cd0.EncodeInt m v.enc) v.enc = (m, none)) →
      (v.IncrN cd0 n ctx).2 = (List.range n).map (fun i => Outcome.ret (i + 1)) := by
    intro cd0 n hn habs hrt
    have h := state.Integer.IncrN_of_Get cd0 v hrt n ctx 0
      (state.Integer.Get_absent cd0 v ctx habs) (by omega)
    rw [h]
    apply List.map_congr_left
    intro i _
    simp
  refine ⟨?_, ?_, hcount cd, ?_⟩
  · intro g hget
    have hincr := state.Integer.Incr_of_Get cd v ctx g hget
    rw [hincr]
    refine ⟨rfl, ?_, rfl, ?_, ?_⟩
    · intro hlt
      have hmod : (g + 1) % 2 ^ 64 = g + 1 := Nat.mod_eq_of_lt (by omega)
      simp only [hmod]
    · exact state.Value.GetRaw_SetRaw _ _ _
    · intro hrt
      exact state.Integer.Get_after_Set cd v ctx _ hrt
  · intro habs
    rw [state.Integer.Incr_of_Get cd v ctx 0 (state.Integer.Get_absent cd v ctx habs)]
    rfl
  · intro hsup
    refine ⟨?_, ?_⟩
    · intro g hget
      rw [state.Integer.Incr_of_Get state.specCodec v ctx g hget]
      exact state.Integer.Get_after_Set state.specCodec v ctx _
        (state.DecodeInt_EncodeInt _ (Nat.mod_lt _ (by norm_num)) v.enc hsup)
    · intro n hn habs
      exact hcount state.specCodec n hn habs
        (fun m hm => state.DecodeInt_EncodeInt m hm v.enc hsup)

/-- Instance of C12, amended: three increments of the sample counter on an empty store
under the spec codec, and one increment from the stored value 258. -/
theorem Incr_spec_witness :
    (sample.counter.IncrN state.specCodec 3 ⟨[]⟩).2 = [.ret 1, .ret 2, .ret 3] ∧
    (sample.counter.Incr state.specCodec ⟨[([9], [0, 0, 0, 0, 0, 0, 1, 2])]⟩).2 = .ret 259 :=
  ⟨(Incr_spec state.specCodec sample.counter ⟨[]⟩).2.2.1 3 (by norm_num) rfl
      (fun m hm => state.DecodeInt_EncodeInt m hm state.FixedWidth rfl),
   ((Incr_spec state.specCodec sample.counter ⟨[([9], [0, 0, 0, 0, 0, 0, 1, 2])]⟩).1 258
      (by decide)).2.1 (by norm_num)⟩

/-- C19 (`Incr` wraps on overflow). Whenever `Get` returns `g`, `Incr` returns
`(g + 1) mod 2 ^ 64`. When the stored value is `2 ^ 64 - 1`, `Incr` does not panic, returns
0 and leaves the encoding of 0 under the key, so that, with a codec that round-trips 0, the
following `Get` returns 0, the number `Get` returns for an absent key. -/
theorem Incr_wraps_on_overflow (cd : state.Codec) (v : state.Integer) (ctx : state.Context) :
    (∀ g, (v.Get cd ctx).2 = .ret g → (v.Incr cd ctx).2 = .ret ((g + 1) % 2 ^ 64)) ∧
    ((v.Get cd ctx).2 = .ret (2 ^ 64 - 1) →
      (v.Incr cd ctx).2 = .ret 0 ∧
      (v.Incr cd ctx).2.panics = false ∧
      v.Value.GetRaw (v.Incr cd ctx).1 = some (cd.EncodeInt 0 v.enc) ∧
      (cd.DecodeInt (cd.EncodeInt 0 v.enc) v.enc = (0, none) →
        (v.Get cd (v.Incr cd ctx).1).2 = .ret 0)) ∧
    (∀ ctx0, v.Value.GetRaw ctx0 = none → (v.Get cd ctx0).2 = .ret 0) := by
  refine ⟨?_, ?_, ?_⟩
  · intro g hget
    rw [state.Integer.Incr_of_Get cd v ctx g hget]
  · intro hget
    have hincr := state.Integer.Incr_of_Get cd v ctx (2 ^ 64 - 1) hget
    have hzero : (2 ^ 64 - 1 + 1) % 2 ^ 64 = 0 := by norm_num
    rw [hzero] at hincr
    rw [hincr]
    refine ⟨rfl, rfl, state.Value.GetRaw_SetRaw _ _ _, ?_⟩
    intro hrt
    exact state.Integer.Get_after_Set cd v ctx 0 hrt
  · intro ctx0 habs
    exact state.Integer.Get_absent cd v ctx0 habs

/-- Instance of C19: the sample counter holding eight bytes 255 under the spec codec. -/
theorem Incr_wraps_on_overflow_witness :
    (sample.counter.Get state.specCodec
        ⟨[([9], [255, 255, 255, 255, 255, 255, 255, 255])]⟩).2 = .ret (2 ^ 64 - 1) ∧
    (sample.counter.Incr state.specCodec
        ⟨[([9], [255, 255, 255, 255, 255, 255, 255, 255])]⟩).2 = .ret 0 ∧
    (sample.counter.Get state.specCodec
        (sample.counter.Incr state.specCodec
          ⟨[([9], [255, 255, 255, 255, 255, 255, 255, 255])]⟩).1).2 = .ret 0 :=
  ⟨by decide,
   ((Incr_wraps_on_overflow state.specCodec sample.counter
      ⟨[([9], [255, 255, 255, 255, 255, 255, 255, 255])]⟩).2.1 (by decide)).1,
   ((Incr_wraps_on_overflow state.specCodec sample.counter
      ⟨[([9], [255, 255, 255, 255, 255, 255, 255, 255])]⟩).2.1 (by decide)).2.2.2 (by decide)⟩

/-! ## The historical-info tracker -/

namespace staking

theorem lookup_cons_key {β : Type} (k a : Int) (b : β) (es : List (Int × β)) :
    List.lookup k ((a, b) :: es) = if k = a then some b else es.lookup k := by
  rw [List.lookup_cons]
  by_cases h : k = a
  · subst h
    simp
  · have hb : (k == a) = false := by simpa using h
    simp [hb, h]

theorem lookup_filter_key {β : Type} (l : List (Int × β)) (k k1 : Int) :
    (l.filter (fun p => !(p.1 == k))).lookup k1 = if k1 = k then none else l.lookup k1 := by
  induction l with
  | nil => simp
  | cons p l ih =>
    obtain ⟨a, b⟩ := p
    by_cases hak : a = k
    · subst hak
      by_cases hk : k1 = a
      · subst hk
        simp [List.filter_cons, ih]
      · simp [List.filter_cons, ih, hk, lookup_cons_key]
    · by_cases hk : k1 = k
      · subst hk
        have hne : ¬ k1 = a := fun h => hak h.symm
        simp [List.filter_cons, hak, ih, lookup_cons_key, hne]
      · by_cases hka : k1 = a
        · subst hka
          simp [List.filter_cons, hak, lookup_cons_key]
        · simp [List.filter_cons, hak, ih, hk, hka, lookup_cons_key]

/-- Reading back the height just written. -/
theorem Keeper.Get_Set_same (k : Keeper) (height : Int) (hi : HistoricalInfo) :
    (k.SetHistoricalInfo height hi).GetHistoricalInfo height = (hi, true) := by
  simp [Keeper.GetHistoricalInfo, Keeper.SetHistoricalInfo, lookup_cons_key]

/-- Reading a deleted height. -/
theorem Keeper.Get_Delete_same (k : Keeper) (height : Int) :
    (k.DeleteHistoricalInfo height).GetHistoricalInfo height = (HistoricalInfo.zero, false) := by
  simp [Keeper.GetHistoricalInfo, Keeper.DeleteHistoricalInfo, lookup_filter_key]

/-- Deleting one height leaves the reads at the others. -/
theorem Keeper.Get_Delete_other (k : Keeper) (height h1 : Int) (hne : h1 ≠ height) :
    (k.DeleteHistoricalInfo height).GetHistoricalInfo h1 = k.GetHistoricalInfo h1 := by
  simp [Keeper.GetHistoricalInfo, Keeper.DeleteHistoricalInfo, lookup_filter_key, hne]

/-- A read that reports "not found" returns the zero value. -/
theorem Keeper.Get_not_found (k : Keeper) (height : Int)
    (h : (k.GetHistoricalInfo height).2 = false) :
    k.GetHistoricalInfo height = (HistoricalInfo.zero, false) := by
  unfold Keeper.GetHistoricalInfo at h ⊢
  cases hl : k.historical.lookup height with
  | none => rfl
  | some hi =>
    rw [hl] at h
    cases h

/-- The tracker with a positive retention: write at the current height, then prune. -/
theorem BeginBlocker_pos (le : Validator → Validator → Bool) (header : abci.Header)
    (k : Keeper) (hN : 0 < k.params.HistoricalEntries) :
    BeginBlocker le header k =
      if ((k.SetHistoricalInfo (header.Height : Int)
            (NewHistoricalInfo le header k.GetLastValidators)).GetHistoricalInfo
          ((header.Height : Int) - (k.params.HistoricalEntries : Int))).2
      then (k.SetHistoricalInfo (header.Height : Int)
            (NewHistoricalInfo le header k.GetLastValidators)).DeleteHistoricalInfo
          ((header.Height : Int) - (k.params.HistoricalEntries : Int))
      else k.SetHistoricalInfo (header.Height : Int)
            (NewHistoricalInfo le header k.GetLastValidators) := by
  have hne : ¬ k.params.HistoricalEntries = 0 := by omega
  simp only [BeginBlocker, if_neg hne]

end staking

/-- C13 (historical pruning window). For every retention `N > 0`, every keeper state and
every header of height `h`, after `BeginBlocker` the entry at `h` is found and is
`HistoricalInfo{header, validators}` with the last-committed validators in the canonical
order (a permutation of them, sorted whenever the order is total and transitive), and the
entry at `h - N` is not found and reads as the zero `HistoricalInfo`, whatever the keeper
held at `h - N` beforehand. -/
theorem BeginBlocker_historical_window (le : staking.Validator → staking.Validator → Bool)
    (k : staking.Keeper) (header : abci.Header) (hN : 0 < k.params.HistoricalEntries) :
    (staking.BeginBlocker le header k).GetHistoricalInfo (header.Height : Int)
      = ({ Header := header, ValSet := staking.sortValidators le k.GetLastValidators }, true) ∧
    (staking.BeginBlocker le header k).GetHistoricalInfo
        ((header.Height : Int) - (k.params.HistoricalEntries : Int))
      = (staking.HistoricalInfo.zero, false) ∧
    (∀ hi0 : staking.HistoricalInfo,
      (staking.BeginBlocker le header
          (k.SetHistoricalInfo ((header.Height : Int) - (k.params.HistoricalEntries : Int))
            hi0)).GetHistoricalInfo
        ((header.Height : Int) - (k.params.HistoricalEntries : Int))
      = (staking.HistoricalInfo.zero, false)) ∧
    List.Perm (staking.sortValidators le k.GetLastValidators) k.GetLastValidators ∧
    ((∀ a b, le a b = true ∨ le b a = true) →
      (∀ a b c, le a b = true → le b c = true → le a c = true) →
      List.Sorted (fun a b => le a b = true)
        (staking.sortValidators le k.GetLastValidators)) := by
  have hprune : ∀ k0 : staking.Keeper, 0 < k0.params.HistoricalEntries →
      (staking.BeginBlocker le header k0).GetHistoricalInfo
          ((header.Height : Int) - (k0.params.HistoricalEntries : Int))
        = (staking.HistoricalInfo.zero, false) := by
    intro k0 h0
    rw [staking.BeginBlocker_pos le header k0 h0]
    split
    · exact staking.Keeper.Get_Delete_same _ _
    · rename_i hfound
      exact staking.Keeper.Get_not_found _ _ (by simpa using hfound)
  refine ⟨?_, hprune k hN, ?_, ?_, ?_⟩
  · have hne : (header.Height : Int) ≠ (header.Height : Int) - (k.params.HistoricalEntries : Int) := by
      omega
    rw [staking.BeginBlocker_pos le header k hN]
    split
    · rw [staking.Keeper.Get_Delete_other _ _ _ hne, staking.Keeper.Get_Set_same]
      rfl
    · rw [staking.Keeper.Get_Set_same]
      rfl
  · intro hi0
    exact hprune (k.SetHistoricalInfo _ hi0) hN
  · exact List.perm_insertionSort _ _
  · intro htot htrans
    haveI : IsTotal staking.Validator (fun a b => le a b = true) := ⟨htot⟩
    haveI : IsTrans staking.Validator (fun a b => le a b = true) := ⟨htrans⟩
    exact List.sorted_insertionSort _ _

/-- Instance of C13, the scenario of `TestBeginBlocker`: five entries retained, an entry set
at height 5, `BeginBlocker` run with a header of height 10. -/
theorem BeginBlocker_historical_window_witness :
    0 < sample.keeper.params.HistoricalEntries ∧
    (sample.keeper.GetHistoricalInfo 5).2 = true ∧
    (staking.BeginBlocker sample.addrLe { ChainID := "HelloChain", Height := 10 }
        sample.keeper).GetHistoricalInfo 10
      = ({ Header := { ChainID := "HelloChain", Height := 10 },
           ValSet := [sample.val 2 10, sample.val 3 8] }, true) ∧
    (staking.BeginBlocker sample.addrLe { ChainID := "HelloChain", Height := 10 }
        sample.keeper).GetHistoricalInfo 5
      = (staking.HistoricalInfo.zero, false) :=
  ⟨by decide, by decide,
   (BeginBlocker_historical_window sample.addrLe sample.keeper
      { ChainID := "HelloChain", Height := 10 } (by decide)).1,
   (BeginBlocker_historical_window sample.addrLe sample.keeper
      { ChainID := "HelloChain", Height := 10 } (by decide)).2.1⟩

/-! ## Commit, lifecycle hooks and queries -/

/-- C14 (Commit is fatal exactly on a failed hash). `Basecoin.Commit` panics if and only if
the result of committing `State` to the backing store is an error result, and then with the
message `"Error getting hash: "` followed by the result's text; otherwise it returns
exactly that result. The result is the one the store client reports. -/
theorem Commit_panics_iff_store_error (pkg : app.Pkg) (a : app.Basecoin) :
    ((a.Commit pkg).ret.panics = true ↔ (a.state.Commit a.eyesCli).2.IsErr = true) ∧
    ((a.state.Commit a.eyesCli).2.IsErr = false →
      (a.Commit pkg).ret = .ret (a.state.Commit a.eyesCli).2) ∧
    ((a.state.Commit a.eyesCli).2.IsErr = true →
      (a.Commit pkg).ret
        = .panic ("Error getting hash: " ++ pkg.resultError (a.state.Commit a.eyesCli).2)) ∧
    (a.state.Commit a.eyesCli).2 = a.eyesCli.CommitSync a.state.store := by
  cases herr : (a.state.Commit a.eyesCli).2.IsErr with
  | false =>
    have h : (a.Commit pkg).ret = .ret (a.state.Commit a.eyesCli).2 := by
      simp only [app.Basecoin.Commit, herr]
      rfl
    rw [h]
    exact ⟨by simp [Outcome.panics], fun _ => rfl, fun hf => Bool.noConfusion hf, rfl⟩
  | true =>
    have h : (a.Commit pkg).ret
        = .panic ("Error getting hash: " ++ pkg.resultError (a.state.Commit a.eyesCli).2) := by
      simp only [app.Basecoin.Commit, herr]
      rfl
    rw [h]
    exact ⟨by simp [Outcome.panics], fun hf => Bool.noConfusion hf, fun _ => rfl, rfl⟩

/-- Instance of C14: the sample client commits, the failing client reports an error. -/
theorem Commit_panics_iff_store_error_witness :
    (sample.app0.Commit sample.pkg).ret = .ret { Code := 0, Data := [2], Log := "" } ∧
    (sample.app1.Commit sample.pkg).ret.panics = true ∧
    (sample.app1.Commit sample.pkg).ret = .panic ("Error getting hash: " ++ "no hash") :=
  ⟨(Commit_panics_iff_store_error sample.pkg sample.app0).2.1 (by decide),
   (Commit_panics_iff_store_error sample.pkg sample.app1).1.mpr (by decide),
   (Commit_panics_iff_store_error sample.pkg sample.app1).2.2.1 (by decide)⟩

/-- C15, the code at the failing input. Right after `NewBasecoin`, following `Info`,
`SetOption`, `InitChain` and `BeginBlock`, a `CheckTx` of a decodable transaction calls the
handler with a nil state pointer; once a `Commit` has run, the same `CheckTx` is handed an
overlay over `State`. -/
theorem CheckTx_first_block_nil_state :
    (sample.app0.serve sample.pkg
        [.Info, .SetOption app.ChainKey "test-chain", .InitChain [],
         .BeginBlock [] ⟨"test-chain", 1⟩, .CheckTx [1, 5]]).2.filterMap app.Call.checkState
      = [none] ∧
    (sample.app0.serve sample.pkg
        [.Info, .SetOption app.ChainKey "test-chain", .InitChain [],
         .BeginBlock [] ⟨"test-chain", 1⟩, .EndBlock 1, .Commit,
         .BeginBlock [] ⟨"test-chain", 2⟩, .CheckTx [1, 5]]).2.filterMap app.Call.checkState
      = [some { parent := { chainID := "test-chain", store := [([1], [10]), ([2], [20])] },
                pending := [] }] := by
  decide

/-- C16 (lifecycle hooks are no-ops). For every application and every argument,
`InitChain`, `BeginBlock` and `EndBlock` return with the application as it was (`State`,
its chain identifier and `cacheState` included), make no collaborator call, and `EndBlock`
returns the zero `ResponseEndBlock`, with no validator diffs. -/
theorem lifecycle_hooks_noop (a : app.Basecoin) (validators : List abci.Validator)
    (hash : Bytes) (header : abci.Header) (height : Nat) :
    ((a.InitChain validators).app = a ∧ (a.InitChain validators).calls = []) ∧
    ((a.BeginBlock hash header).app = a ∧ (a.BeginBlock hash header).calls = []) ∧
    ((a.EndBlock height).app = a ∧ (a.EndBlock height).calls = []) ∧
    (a.EndBlock height).ret = abci.ResponseEndBlock.zero ∧
    (a.EndBlock height).ret.Diffs = [] ∧
    ((a.InitChain validators).app.state = a.state ∧
     (a.BeginBlock hash header).app.state = a.state ∧
     (a.EndBlock height).app.state = a.state) ∧
    ((a.InitChain validators).app.cacheState = a.cacheState ∧
     (a.BeginBlock hash header).app.cacheState = a.cacheState ∧
     (a.EndBlock height).app.cacheState = a.cacheState) :=
  ⟨⟨rfl, rfl⟩, ⟨rfl, rfl⟩, ⟨rfl, rfl⟩, rfl, rfl, ⟨rfl, rfl, rfl⟩, ⟨rfl, rfl, rfl⟩⟩

/-- C17 (query pass-through). For a request with non-empty `Data`, `Basecoin.Query` makes
exactly one collaborator call, `QuerySync` with the request as given, and leaves the
application as it was. When the store reports no error the response is the store's
response; when it reports the error `err` the response is the store's response with
`Code = InternalError` and `Log = "Failed to query MerkleEyes: "` followed by the message of
`err`. -/
theorem Query_pass_through (a : app.Basecoin) (reqQuery : abci.RequestQuery)
    (hlen : reqQuery.Data.length ≠ 0) :
    (a.Query reqQuery).calls = [app.Call.QuerySync reqQuery] ∧
    (a.Query reqQuery).app = a ∧
    ((a.eyesCli.QuerySync a.state.store reqQuery).2 = none →
      (a.Query reqQuery).ret = (a.eyesCli.QuerySync a.state.store reqQuery).1) ∧
    (∀ err, (a.eyesCli.QuerySync a.state.store reqQuery).2 = some err →
      (a.Query reqQuery).ret
        = { (a.eyesCli.QuerySync a.state.store reqQuery).1 with
              Log := "Failed to query MerkleEyes: " ++ err.Error,
              Code := abci.CodeType_InternalError } ∧
      (a.Query reqQuery).ret.Code = abci.CodeType_InternalError ∧
      (a.Query reqQuery).ret.Log = "Failed to query MerkleEyes: " ++ err.Error) := by
  simp only [app.Basecoin.Query, if_neg hlen]
  cases hr : (a.eyesCli.QuerySync a.state.store reqQuery).2 with
  | none =>
    refine ⟨rfl, rfl, fun _ => rfl, ?_⟩
    intro err h
    cases h
  | some e =>
    refine ⟨rfl, rfl, fun h => Option.noConfusion h, ?_⟩
    intro err h
    cases h
    exact ⟨rfl, rfl, rfl⟩

/-- Instance of C17: a query for key `[1]` against the sample client and against the
failing client. -/
theorem Query_pass_through_witness :
    (({ Data := [1], Path := "/key", Height := 0, Prove := false } : abci.RequestQuery).Data.length
      ≠ 0) ∧
    (sample.app0.Query { Data := [1], Path := "/key", Height := 0, Prove := false }).calls
      = [app.Call.QuerySync { Data := [1], Path := "/key", Height := 0, Prove := false }] ∧
    (sample.app0.Query { Data := [1], Path := "/key", Height := 0, Prove := false }).ret
      = { abci.ResponseQuery.zero with Key := [1], Value := [10] } ∧
    (sample.app1.Query { Data := [1], Path := "/key", Height := 0, Prove := false }).ret.Log
      = "Failed to query MerkleEyes: " ++ "connection refused" :=
  ⟨by decide,
   (Query_pass_through sample.app0
      { Data := [1], Path := "/key", Height := 0, Prove := false } (by decide)).1,
   (Query_pass_through sample.app0
      { Data := [1], Path := "/key", Height := 0, Prove := false } (by decide)).2.2.1 rfl,
   ((Query_pass_through sample.app1
      { Data := [1], Path := "/key", Height := 0, Prove := false } (by decide)).2.2.2
      ⟨"connection refused"⟩ rfl).2.2⟩

/-! ## The chain identifier along a sequence of calls -/

namespace app

/-- A request other than `SetOption` keeps the chain identifier of `State`, and every
context it hands to the handler carries that identifier. -/
theorem Basecoin.handle_chainID (pkg : Pkg) (a : Basecoin) (r : Request)
    (hr : r.isSetOption = false) :
    (a.handle pkg r).1.state.chainID = a.state.chainID ∧
    ∀ c ∈ (a.handle pkg r).2, ∀ ctx, c.context = some ctx → ctx.chainID = a.state.chainID := by
  cases r with
  | SetOption key value => cases hr
  | Info =>
    simp only [Basecoin.handle, Basecoin.Info]
    split <;> simp [Call.context]
  | InitChain validators => simp [Basecoin.handle, Basecoin.InitChain]
  | BeginBlock hash header => simp [Basecoin.handle, Basecoin.BeginBlock]
  | EndBlock height => simp [Basecoin.handle, Basecoin.EndBlock]
  | Query reqQuery =>
    simp only [Basecoin.handle, Basecoin.Query]
    split
    · simp
    · split <;> simp [Call.context]
  | Commit =>
    simp only [Basecoin.handle, Basecoin.Commit]
    split <;> simp [Call.context, sm.State.Commit]
  | CheckTx txBytes =>
    simp only [Basecoin.handle, Basecoin.CheckTx]
    split
    · simp
    · split <;> simp [Call.context, stack.NewContext, sm.State.GetChainID]
  | DeliverTx txBytes =>
    simp only [Basecoin.handle, Basecoin.DeliverTx]
    split
    · simp
    · split
      · simp [Call.context, stack.NewContext, sm.State.GetChainID]
      · simp [Call.context, stack.NewContext, sm.State.GetChainID, sm.Cache.chainID_CacheSync,
          sm.Cache.parent_run, sm.State.CacheWrap]

/-- The same along a sequence of requests none of which is a `SetOption`. -/
theorem Basecoin.serve_chainID (pkg : Pkg) (reqs : List Request) (a : Basecoin)
    (hreqs : ∀ r ∈ reqs, r.isSetOption = false) :
    (a.serve pkg reqs).1.state.chainID = a.state.chainID ∧
    ∀ c ∈ (a.serve pkg reqs).2, ∀ ctx, c.context = some ctx → ctx.chainID = a.state.chainID := by
  induction reqs generalizing a with
  | nil => simp [Basecoin.serve]
  | cons r rs ih =>
    have hhead := Basecoin.handle_chainID pkg a r (hreqs r (List.mem_cons_self r rs))
    have htail := ih (a.handle pkg r).1 (fun q hq => hreqs q (List.mem_cons_of_mem r hq))
    simp only [Basecoin.serve]
    refine ⟨by rw [htail.1, hhead.1], ?_⟩
    intro c hc ctx hctx
    rcases List.mem_append.mp hc with h | h
    · exact hhead.2 c h ctx hctx
    · rw [← hhead.1]
      exact htail.2 c h ctx hctx

/-- Every context a request hands to the handler carries the chain identifier `State` had
when the request arrived; a `SetOption` hands out no context. -/
theorem Basecoin.handle_context (pkg : Pkg) (a : Basecoin) (r : Request) :
    ∀ c ∈ (a.handle pkg r).2, ∀ ctx, c.context = some ctx → ctx.chainID = a.state.chainID := by
  cases hr : r.isSetOption with
  | false => exact (Basecoin.handle_chainID pkg a r hr).2
  | true =>
    cases r with
    | SetOption key value =>
      simp only [Basecoin.handle, Basecoin.SetOption]
      split
      · simp [Call.context]
      · split <;> simp [Call.context]
    | Info => cases hr
    | InitChain validators => cases hr
    | BeginBlock hash header => cases hr
    | EndBlock height => cases hr
    | Query reqQuery => cases hr
    | Commit => cases hr
    | CheckTx txBytes => cases hr
    | DeliverTx txBytes => cases hr

/-- No request replaces the handler or the logger of the application. -/
theorem Basecoin.handle_handler (pkg : Pkg) (a : Basecoin) (r : Request) :
    (a.handle pkg r).1.handler = a.handler ∧ (a.handle pkg r).1.logger = a.logger := by
  cases r with
  | SetOption key value =>
    simp only [Basecoin.handle, Basecoin.SetOption]
    split
    · exact ⟨rfl, rfl⟩
    · split <;> exact ⟨rfl, rfl⟩
  | Info =>
    simp only [Basecoin.handle, Basecoin.Info]
    split <;> exact ⟨rfl, rfl⟩
  | InitChain validators => exact ⟨rfl, rfl⟩
  | BeginBlock hash header => exact ⟨rfl, rfl⟩
  | EndBlock height => exact ⟨rfl, rfl⟩
  | Query reqQuery =>
    simp only [Basecoin.handle, Basecoin.Query]
    split
    · exact ⟨rfl, rfl⟩
    · split <;> exact ⟨rfl, rfl⟩
  | Commit =>
    simp only [Basecoin.handle, Basecoin.Commit]
    split <;> exact ⟨rfl, rfl⟩
  | CheckTx txBytes =>
    simp only [Basecoin.handle, Basecoin.CheckTx]
    split
    · exact ⟨rfl, rfl⟩
    · split <;> exact ⟨rfl, rfl⟩
  | DeliverTx txBytes =>
    simp only [Basecoin.handle, Basecoin.DeliverTx]
    split
    · exact ⟨rfl, rfl⟩
    · split <;> exact ⟨rfl, rfl⟩

/-- Along a sequence in which the chain identifier is not set again, `State` keeps its
chain identifier and every context handed to the handler carries it. -/
theorem Basecoin.serve_keepsChainID (pkg : Pkg) (reqs : List Request) (a : Basecoin)
    (hkeep : a.keepsChainID pkg reqs = true) :
    (a.serve pkg reqs).1.state.chainID = a.state.chainID ∧
    ∀ c ∈ (a.serve pkg reqs).2, ∀ ctx, c.context = some ctx → ctx.chainID = a.state.chainID := by
  induction reqs generalizing a with
  | nil => simp [Basecoin.serve]
  | cons r rs ih =>
    simp only [Basecoin.keepsChainID, Bool.and_eq_true, Bool.or_eq_true, Bool.not_eq_true',
      decide_eq_true_eq] at hkeep
    have hhead : (a.handle pkg r).1.state.chainID = a.state.chainID := by
      rcases hkeep.1 with h | h
      · exact (Basecoin.handle_chainID pkg a r h).1
      · exact h
    have htail := ih (a.handle pkg r).1 hkeep.2
    simp only [Basecoin.serve]
    refine ⟨by rw [htail.1, hhead], ?_⟩
    intro c hc ctx hctx
    rcases List.mem_append.mp hc with h | h
    · exact Basecoin.handle_context pkg a r c h ctx hctx
    · rw [← hhead]
      exact htail.2 c h ctx hctx

/-- The chain identifier is not set again along a sequence whose `SetOption` requests all
carry a key other than the reserved one and are delegated to a handler whose `SetOption`
leaves the chain identifier of the state it is handed alone. -/
theorem Basecoin.keepsChainID_of_handler (pkg : Pkg) (reqs : List Request) (a : Basecoin)
    (hreqs : ∀ key value, Request.SetOption key value ∈ reqs →
      key ≠ ChainKey ∧
      ∀ l st, (a.handler.SetOption l st key value).1.chainID = st.chainID) :
    a.keepsChainID pkg reqs = true := by
  induction reqs generalizing a with
  | nil => rfl
  | cons r rs ih =>
    have hh := Basecoin.handle_handler pkg a r
    have htail : Basecoin.keepsChainID pkg (a.handle pkg r).1 rs = true := by
      apply ih
      intro key value hmem
      rw [hh.1]
      exact hreqs key value (List.mem_cons_of_mem r hmem)
    simp only [Basecoin.keepsChainID, htail, Bool.and_true, Bool.or_eq_true,
      Bool.not_eq_true', decide_eq_true_eq]
    cases hr : r.isSetOption with
    | false => exact Or.inl rfl
    | true =>
      right
      cases r with
      | SetOption key value =>
        have hk := hreqs key value (List.mem_cons_self _ rs)
        simp only [Basecoin.handle, Basecoin.SetOption, if_neg hk.1]
        split <;> exact hk.2 a.logger a.state
      | Info => cases hr
      | InitChain validators => cases hr
      | BeginBlock hash header => cases hr
      | EndBlock height => cases hr
      | Query reqQuery => cases hr
      | Commit => cases hr
      | CheckTx txBytes => cases hr
      | DeliverTx txBytes => cases hr

end app

/-- C18 (the context chain identifier tracks `State`). After
`SetOption("base/chain_id", v)`, along any sequence of requests in which the chain
identifier is not set again (every `SetOption` of the sequence, delegated or not, leaves
the chain identifier of `State` as it found it), every context handed to the handler by
`DeliverTx` or `CheckTx` has chain identifier `v`, and `State` still reports `v`. -/
theorem Context_chainID_tracks_State (pkg : app.Pkg) (a : app.Basecoin) (v : String)
    (reqs : List app.Request)
    (hkeep : (a.SetOption app.ChainKey v).app.keepsChainID pkg reqs = true) :
    (∀ c ∈ ((a.SetOption app.ChainKey v).app.serve pkg reqs).2, ∀ ctx,
      c.context = some ctx → ctx.chainID = v) ∧
    ((a.SetOption app.ChainKey v).app.serve pkg reqs).1.state.GetChainID = v := by
  have hset : (a.SetOption app.ChainKey v).app.state.chainID = v := by
    simp only [app.Basecoin.SetOption, if_true]
    rfl
  have h := app.Basecoin.serve_keepsChainID pkg reqs (a.SetOption app.ChainKey v).app hkeep
  rw [hset] at h
  exact ⟨h.2, h.1⟩

/-- Instance of C18: after setting the chain identifier to `"test-chain"`, a delegated
`SetOption`, a block with a `CheckTx` and a `DeliverTx`, a `Commit`, and a second block
with both again; the four contexts handed to the handler carry `"test-chain"`. -/
theorem Context_chainID_tracks_State_witness :
    ((sample.app0.SetOption app.ChainKey "test-chain").app.keepsChainID sample.pkg
        [.SetOption "coin/issuer" "x", .BeginBlock [] ⟨"test-chain", 1⟩, .CheckTx [1, 5],
         .DeliverTx [1, 5], .EndBlock 1, .Commit, .BeginBlock [] ⟨"test-chain", 2⟩,
         .CheckTx [2, 6], .DeliverTx [2, 6, 7]] = true) ∧
    (((sample.app0.SetOption app.ChainKey "test-chain").app.serve sample.pkg
        [.SetOption "coin/issuer" "x", .BeginBlock [] ⟨"test-chain", 1⟩, .CheckTx [1, 5],
         .DeliverTx [1, 5], .EndBlock 1, .Commit, .BeginBlock [] ⟨"test-chain", 2⟩,
         .CheckTx [2, 6], .DeliverTx [2, 6, 7]]).2.filterMap app.Call.context).map
        (fun ctx => ctx.chainID)
      = ["test-chain", "test-chain", "test-chain", "test-chain"] ∧
    ((∀ c ∈ ((sample.app0.SetOption app.ChainKey "test-chain").app.serve sample.pkg
        [.SetOption "coin/issuer" "x", .BeginBlock [] ⟨"test-chain", 1⟩, .CheckTx [1, 5],
         .DeliverTx [1, 5], .EndBlock 1, .Commit, .BeginBlock [] ⟨"test-chain", 2⟩,
         .CheckTx [2, 6], .DeliverTx [2, 6, 7]]).2, ∀ ctx,
        c.context = some ctx → ctx.chainID = "test-chain") ∧
     ((sample.app0.SetOption app.ChainKey "test-chain").app.serve sample.pkg
        [.SetOption "coin/issuer" "x", .BeginBlock [] ⟨"test-chain", 1⟩, .CheckTx [1, 5],
         .DeliverTx [1, 5], .EndBlock 1, .Commit, .BeginBlock [] ⟨"test-chain", 2⟩,
         .CheckTx [2, 6], .DeliverTx [2, 6, 7]]).1.state.GetChainID = "test-chain") :=
  ⟨by decide, by decide,
   Context_chainID_tracks_State sample.pkg sample.app0 "test-chain"
     [.SetOption "coin/issuer" "x", .BeginBlock [] ⟨"test-chain", 1⟩, .CheckTx [1, 5],
      .DeliverTx [1, 5], .EndBlock 1, .Commit, .BeginBlock [] ⟨"test-chain", 2⟩,
      .CheckTx [2, 6], .DeliverTx [2, 6, 7]] (by decide)⟩
